import Mathlib

/-!
Verification development for the `gosek` secret scanner.

The Python sources are shallowly embedded:

* `gosek/patterns_loader.py` — inline-flag sanitization (`_sanitize_inline_flags`,
  the regexes `_RE_INLINE_MIX` / `_RE_INLINE_OFF`), flag maps, `_compile`, and
  `_load_from_obj`.  Text is modelled as `List Char`; Python `re` flag constants
  are their CPython numeric values (IGNORECASE = 2, MULTILINE = 8, DOTALL = 16,
  VERBOSE = 64).  `re.compile` itself (regex syntax checking) is not modelled;
  only the flag computation and the text rewriting are.
* `gosek/scanner.py` — `Finding`, `context_snippet`, `scan_text`, `scan_many`,
  `fetch_url`.  A compiled regex matcher is abstracted as a search function
  `text → pos → Option (start, stop)` returning the leftmost match at or after
  `pos`; `finditer` is the standard find-all driver over such a function.
  Network and file I/O are abstracted as oracles (`Env`, the per-attempt oracle
  of `fetch_url`); thread-pool completion order is an arbitrary permutation of
  the submission order, supplied as an explicit `order` argument.
-/

/-! ### Inline-flag sanitization (`patterns_loader.py`, lines 29-91) -/

/-- `INLINE_FLAG_MAP`: `{"i": re.IGNORECASE, "m": re.MULTILINE, "s": re.DOTALL,
"x": re.VERBOSE}`, with the CPython numeric flag values. -/
def INLINE_FLAG_MAP : List (Char × Nat) :=
  [('i', 2), ('m', 8), ('s', 16), ('x', 64)]

/-- `INLINE_FLAG_MAP.get(ch, 0)`. -/
def inlineFlagGet (c : Char) : Nat :=
  (INLINE_FLAG_MAP.lookup c).getD 0

/-- A character of the regex character class `[imsx]`. -/
def isFlagChar (c : Char) : Bool :=
  c = 'i' || c = 'm' || c = 's' || c = 'x'

/-- `for ch in on_flags: extra |= INLINE_FLAG_MAP.get(ch, 0)` starting from 0. -/
def onBits (l : List Char) : Nat :=
  l.foldl (fun a c => a ||| inlineFlagGet c) 0

/-- The inner `while` of `_sanitize_inline_flags` (lines 53-62): starting right
after `"(?"`, walk forward to the first `':'` or `')'`.  Returns the characters
walked over, the terminating character, and the remainder; `none` if the pattern
ends first. -/
def scanHeader : List Char → Option (List Char × Char × List Char)
  | [] => none
  | c :: cs =>
    if c = ':' ∨ c = ')' then some ([], c, cs)
    else
      match scanHeader cs with
      | some (pre, d, post) => some (c :: pre, d, post)
      | none => none

/-- The `scoped` outcome of the header walk: `some (hdr, post)` iff the first
`':'`/`')'` after `"(?"` is a `':'`; `hdr` are the characters before it and
`post` the characters after it. -/
def scopedSplit (l : List Char) : Option (List Char × List Char) :=
  match scanHeader l with
  | some (pre, d, post) => if d = ':' then some (pre, post) else none
  | none => none

/-- `_RE_INLINE_MIX.match(pat, i)`, i.e. the anchored match of
`\(\?([imsx]+)(?:-([imsx]+))?\)` applied to the characters after `"(?"`.
Returns `(onFlags, offFlags, remainder)`; `offFlags = []` encodes an absent
`-offFlags` part.  Greedy matching of `[imsx]+` is maximal munch, which is
exact here because `[imsx]` is disjoint from `'-'` and `')'`. -/
def matchInlineMix (l : List Char) : Option (List Char × List Char × List Char) :=
  let onl := l.takeWhile isFlagChar
  let r1 := l.dropWhile isFlagChar
  if onl = [] then none
  else
    match r1 with
    | [] => none
    | c :: r2 =>
      if c = ')' then some (onl, [], r2)
      else if c = '-' then
        let offl := r2.takeWhile isFlagChar
        let r3 := r2.dropWhile isFlagChar
        if offl = [] then none
        else
          match r3 with
          | [] => none
          | d :: r4 => if d = ')' then some (onl, offl, r4) else none
      else none

/-- `_RE_INLINE_OFF.match(pat, i)`, i.e. the anchored match of
`\(\?-([imsx]+)\)` applied to the characters after `"(?"`. -/
def matchInlineOff (l : List Char) : Option (List Char × List Char) :=
  match l with
  | [] => none
  | c :: r =>
    if c = '-' then
      let offl := r.takeWhile isFlagChar
      let r2 := r.dropWhile isFlagChar
      if offl = [] then none
      else
        match r2 with
        | [] => none
        | d :: r3 => if d = ')' then some (offl, r3) else none
    else none

theorem scanHeader_eq_append {l pre post : List Char} {d : Char}
    (h : scanHeader l = some (pre, d, post)) : l = pre ++ d :: post := by
  induction l generalizing pre with
  | nil => simp [scanHeader] at h
  | cons c cs ih =>
    rw [scanHeader] at h
    by_cases hc : c = ':' ∨ c = ')'
    · simp [hc] at h
      obtain ⟨h1, h2, h3⟩ := h
      subst h1; subst h2; subst h3; rfl
    · simp [hc] at h
      cases hr : scanHeader cs with
      | none => rw [hr] at h; simp at h
      | some v =>
        obtain ⟨p, d0, q⟩ := v
        rw [hr] at h
        simp at h
        obtain ⟨h1, h2, h3⟩ := h
        subst h1; subst h2; subst h3
        simpa using ih hr

theorem scopedSplit_eq_append {l hdr post : List Char}
    (h : scopedSplit l = some (hdr, post)) : l = hdr ++ ':' :: post := by
  rw [scopedSplit] at h
  cases hs : scanHeader l with
  | none => rw [hs] at h; simp at h
  | some v =>
    obtain ⟨p, d, q⟩ := v
    rw [hs] at h
    by_cases hd : d = ':'
    · subst hd
      simp at h
      obtain ⟨h1, h2⟩ := h
      subst h1; subst h2
      exact scanHeader_eq_append hs
    · simp [hd] at h

theorem scopedSplit_length {l hdr post : List Char}
    (h : scopedSplit l = some (hdr, post)) : post.length < l.length := by
  have := scopedSplit_eq_append h
  subst this
  simp
  omega

theorem matchInlineMix_eq_append {l onl offl r : List Char}
    (h : matchInlineMix l = some (onl, offl, r)) :
    l = onl ++ (if offl = [] then [] else '-' :: offl) ++ ')' :: r := by
  have hl := (List.takeWhile_append_dropWhile (p := isFlagChar) (l := l)).symm
  simp only [matchInlineMix] at h
  by_cases h0 : l.takeWhile isFlagChar = []
  · simp [h0] at h
  · simp only [h0, if_false] at h
    cases hr1 : l.dropWhile isFlagChar with
    | nil => rw [hr1] at h; simp at h
    | cons c r2 =>
      rw [hr1] at h
      by_cases hc : c = ')'
      · subst hc
        simp only [if_true] at h
        obtain ⟨h1, h2, h3⟩ := by simpa using h
        subst h1; subst h2; subst h3
        conv_lhs => rw [hl, hr1]
        simp
      · simp only [hc, if_false] at h
        by_cases hcm : c = '-'
        · subst hcm
          simp only [if_true] at h
          by_cases h2 : r2.takeWhile isFlagChar = []
          · simp [h2] at h
          · simp only [h2, if_false] at h
            have hr2 := (List.takeWhile_append_dropWhile (p := isFlagChar) (l := r2)).symm
            cases hr3 : r2.dropWhile isFlagChar with
            | nil => rw [hr3] at h; simp at h
            | cons d r4 =>
              rw [hr3] at h
              by_cases hd : d = ')'
              · subst hd
                simp only [if_true] at h
                obtain ⟨h1, h3, h4⟩ := by simpa using h
                subst h1; subst h3; subst h4
                conv_lhs => rw [hl, hr1, hr2, hr3]
                simp [h2]
              · simp [hd] at h
        · simp [hcm] at h

theorem matchInlineMix_length {l onl offl r : List Char}
    (h : matchInlineMix l = some (onl, offl, r)) : r.length < l.length := by
  have := matchInlineMix_eq_append h
  subst this
  simp
  omega

theorem matchInlineOff_eq_append {l offl r : List Char}
    (h : matchInlineOff l = some (offl, r)) : l = '-' :: offl ++ ')' :: r := by
  cases l with
  | nil => simp [matchInlineOff] at h
  | cons c cs =>
    simp only [matchInlineOff] at h
    by_cases hc : c = '-'
    · subst hc
      simp only [if_true] at h
      by_cases h0 : cs.takeWhile isFlagChar = []
      · simp [h0] at h
      · simp only [h0, if_false] at h
        have hcs := (List.takeWhile_append_dropWhile (p := isFlagChar) (l := cs)).symm
        cases hr : cs.dropWhile isFlagChar with
        | nil => rw [hr] at h; simp at h
        | cons d r3 =>
          rw [hr] at h
          by_cases hd : d = ')'
          · subst hd
            simp only [if_true] at h
            obtain ⟨h1, h2⟩ := by simpa using h
            subst h1; subst h2
            conv_lhs => rw [hcs, hr]
            simp
          · simp [hd] at h
    · simp [hc] at h

theorem matchInlineOff_length {l offl r : List Char}
    (h : matchInlineOff l = some (offl, r)) : r.length < l.length := by
  have := matchInlineOff_eq_append h
  subst this
  simp
  omega

/-- `_sanitize_inline_flags` (`patterns_loader.py`, lines 42-91).  Returns the
rewritten pattern together with the accumulated extra flags.  The Python loop
threads one mutable `extra` accumulator left to right; since `|||` is
associative and commutative the equivalent right-fold below produces the same
value.  The fallback branch consumes both characters of `"(?"` at once: in the
source only `'('` is consumed, but the following `'?'` can never itself start a
`"(?"` group, so it is copied verbatim on the very next iteration. -/
def sanitizeInlineFlags : List Char → List Char × Nat
  | [] => ([], 0)
  | [c] => ([c], 0)
  | c1 :: c2 :: rest =>
    if c1 = '(' ∧ c2 = '?' then
      match hs : scopedSplit rest with
      | some (hdr, post) =>
        -- scoped group: copy "(?" ++ hdr ++ ":" verbatim, resume after it
        let r := sanitizeInlineFlags post
        ('(' :: '?' :: (hdr ++ ':' :: r.1), r.2)
      | none =>
        match hm : matchInlineMix rest with
        | some (onl, _offl, r1) =>
          -- unscoped (?on) / (?on-off): drop the group, accumulate on-flags
          let r := sanitizeInlineFlags r1
          (r.1, onBits onl ||| r.2)
        | none =>
          match ho : matchInlineOff rest with
          | some (_offl, r1) =>
            -- pure negation (?-off): drop the group, no flag effect
            sanitizeInlineFlags r1
          | none =>
            -- fail-open: keep "(?" as literal characters
            let r := sanitizeInlineFlags rest
            ('(' :: '?' :: r.1, r.2)
    else
      let r := sanitizeInlineFlags (c2 :: rest)
      (c1 :: r.1, r.2)
termination_by l => l.length
decreasing_by
  · have := scopedSplit_length hs; simp; omega
  · have := matchInlineMix_length hm; simp; omega
  · have := matchInlineOff_length ho; simp; omega
  · simp; omega
  · simp

/-! ### Unfolding equations for `sanitizeInlineFlags` -/

theorem san_nil : sanitizeInlineFlags [] = ([], 0) := by
  simp [sanitizeInlineFlags]

theorem san_single (c : Char) : sanitizeInlineFlags [c] = ([c], 0) := by
  simp [sanitizeInlineFlags]

theorem san_cons_ne {c : Char} (t : List Char) (hc : c ≠ '(') :
    sanitizeInlineFlags (c :: t) =
      (c :: (sanitizeInlineFlags t).1, (sanitizeInlineFlags t).2) := by
  cases t with
  | nil => simp [sanitizeInlineFlags]
  | cons c2 rest =>
    rw [sanitizeInlineFlags]
    simp [hc]

theorem san_paren_ne {c2 : Char} (rest : List Char) (hc : c2 ≠ '?') :
    sanitizeInlineFlags ('(' :: c2 :: rest) =
      ('(' :: (sanitizeInlineFlags (c2 :: rest)).1,
       (sanitizeInlineFlags (c2 :: rest)).2) := by
  rw [sanitizeInlineFlags]
  simp [hc]

theorem san_scoped {l hdr post : List Char} (h : scopedSplit l = some (hdr, post)) :
    sanitizeInlineFlags ('(' :: '?' :: l) =
      ('(' :: '?' :: (hdr ++ ':' :: (sanitizeInlineFlags post).1),
       (sanitizeInlineFlags post).2) := by
  rw [sanitizeInlineFlags]
  rw [h]
  simp

theorem san_mix {l onl offl r1 : List Char} (hs : scopedSplit l = none)
    (hm : matchInlineMix l = some (onl, offl, r1)) :
    sanitizeInlineFlags ('(' :: '?' :: l) =
      ((sanitizeInlineFlags r1).1, onBits onl ||| (sanitizeInlineFlags r1).2) := by
  rw [sanitizeInlineFlags]
  rw [hs]
  rw [hm]
  simp

theorem san_off {l offl r1 : List Char} (hs : scopedSplit l = none)
    (hm : matchInlineMix l = none) (ho : matchInlineOff l = some (offl, r1)) :
    sanitizeInlineFlags ('(' :: '?' :: l) = sanitizeInlineFlags r1 := by
  rw [sanitizeInlineFlags]
  rw [hs]
  rw [hm]
  rw [ho]
  simp

theorem san_fallback {l : List Char} (hs : scopedSplit l = none)
    (hm : matchInlineMix l = none) (ho : matchInlineOff l = none) :
    sanitizeInlineFlags ('(' :: '?' :: l) =
      ('(' :: '?' :: (sanitizeInlineFlags l).1, (sanitizeInlineFlags l).2) := by
  rw [sanitizeInlineFlags]
  rw [hs]
  rw [hm]
  rw [ho]
  simp

/-! ### Behaviour of the header walk and the anchored matches on shaped input -/

theorem scanHeader_none_of (l : List Char) (h : ∀ c ∈ l, ¬(c = ':' ∨ c = ')')) :
    scanHeader l = none := by
  induction l with
  | nil => rfl
  | cons c cs ih =>
    rw [scanHeader]
    have hc := h c (by simp)
    simp only [hc, if_false]
    rw [ih (fun d hd => h d (by simp [hd]))]

theorem scanHeader_skip (a b : List Char) (h : ∀ c ∈ a, ¬(c = ':' ∨ c = ')')) :
    scanHeader (a ++ b) =
      (scanHeader b).map (fun x => (a ++ x.1, x.2.1, x.2.2)) := by
  induction a with
  | nil => simp
  | cons c cs ih =>
    have hc := h c (by simp)
    rw [List.cons_append, scanHeader]
    simp only [hc, if_false]
    rw [ih (fun d hd => h d (by simp [hd]))]
    cases scanHeader b with
    | none => simp
    | some v => simp

theorem flagChar_not_delim {c : Char} (h : isFlagChar c) : ¬(c = ':' ∨ c = ')') := by
  simp only [isFlagChar, Bool.or_eq_true, decide_eq_true_eq] at h
  rcases h with ((h | h) | h) | h <;> subst h <;> decide

theorem matchInlineMix_none_of_no_paren {l : List Char} (h : ')' ∉ l) :
    matchInlineMix l = none := by
  cases hm : matchInlineMix l with
  | none => rfl
  | some x =>
    exfalso
    obtain ⟨onl, offl, r⟩ := x
    have := matchInlineMix_eq_append hm
    subst this
    simp at h

theorem matchInlineOff_none_of_no_paren {l : List Char} (h : ')' ∉ l) :
    matchInlineOff l = none := by
  cases hm : matchInlineOff l with
  | none => rfl
  | some x =>
    exfalso
    obtain ⟨offl, r⟩ := x
    have := matchInlineOff_eq_append hm
    subst this
    simp at h

/-- The textual form of an unscoped mixed inline-flag group `(?on)` or
`(?on-off)`; `offl = []` encodes the `(?on)` shape. -/
def inlineMixGroup (onl offl : List Char) : List Char :=
  '(' :: '?' :: (onl ++ (if offl = [] then [] else '-' :: offl) ++ [')'])

/-- The characters following `"(?"` when an unscoped mixed group is followed by
`rest`. -/
def mixBody (onl offl rest : List Char) : List Char :=
  onl ++ (if offl = [] then [] else '-' :: offl) ++ ')' :: rest

theorem mixGroup_append (onl offl rest : List Char) :
    inlineMixGroup onl offl ++ rest = '(' :: '?' :: mixBody onl offl rest := by
  simp [inlineMixGroup, mixBody]

theorem scopedSplit_mixShape (onl offl rest : List Char)
    (honf : ∀ c ∈ onl, isFlagChar c) (hofff : ∀ c ∈ offl, isFlagChar c) :
    scopedSplit (mixBody onl offl rest) = none := by
  have ha : ∀ c ∈ onl ++ (if offl = [] then [] else '-' :: offl), ¬(c = ':' ∨ c = ')') := by
    intro c hc
    rcases List.mem_append.1 hc with h | h
    · exact flagChar_not_delim (honf c h)
    · by_cases hoff : offl = []
      · simp [hoff] at h
      · simp only [hoff, if_false] at h
        rcases List.mem_cons.1 h with h | h
        · subst h; decide
        · exact flagChar_not_delim (hofff c h)
  have hb : mixBody onl offl rest =
      (onl ++ (if offl = [] then [] else '-' :: offl)) ++ ')' :: rest := by
    simp [mixBody]
  rw [scopedSplit, hb, scanHeader_skip _ _ ha, scanHeader]
  simp

theorem matchInlineMix_mixShape (onl offl rest : List Char) (hon : onl ≠ [])
    (honf : ∀ c ∈ onl, isFlagChar c) (hofff : ∀ c ∈ offl, isFlagChar c) :
    matchInlineMix (mixBody onl offl rest) = some (onl, offl, rest) := by
  have hparen : isFlagChar ')' = false := by decide
  have hdash : isFlagChar '-' = false := by decide
  by_cases hoff : offl = []
  · subst hoff
    have h1 : mixBody onl [] rest = onl ++ ')' :: rest := by simp [mixBody]
    rw [h1]
    simp only [matchInlineMix]
    rw [List.takeWhile_append_of_pos honf, List.dropWhile_append_of_pos honf]
    simp [List.takeWhile_cons, List.dropWhile_cons, hparen, hon]
  · have h1 : mixBody onl offl rest = onl ++ '-' :: (offl ++ ')' :: rest) := by
      simp [mixBody, hoff]
    rw [h1]
    simp only [matchInlineMix]
    rw [List.takeWhile_append_of_pos honf, List.dropWhile_append_of_pos honf]
    rw [List.takeWhile_cons, List.dropWhile_cons]
    simp only [hdash, Bool.false_eq_true, if_false, List.append_nil]
    rw [List.takeWhile_append_of_pos hofff, List.dropWhile_append_of_pos hofff]
    simp [List.takeWhile_cons, List.dropWhile_cons, hparen, hon, hoff]

theorem scopedSplit_scopedShape (hdr rest : List Char)
    (hhdr : ∀ c ∈ hdr, ¬(c = ':' ∨ c = ')')) :
    scopedSplit (hdr ++ ':' :: rest) = some (hdr, rest) := by
  rw [scopedSplit, scanHeader_skip hdr (':' :: rest) hhdr, scanHeader]
  simp

/-- Patterns containing no `':'` and no `')'` are passed through unchanged: no
group header can terminate, no anchored match can succeed, so every character is
copied verbatim and no flag is accumulated. -/
theorem san_verbatim (l : List Char) (h1 : ':' ∉ l) (h2 : ')' ∉ l) :
    sanitizeInlineFlags l = (l, 0) := by
  have key : ∀ n, ∀ l : List Char, l.length ≤ n → ':' ∉ l → ')' ∉ l →
      sanitizeInlineFlags l = (l, 0) := by
    intro n
    induction n with
    | zero =>
      intro l hl _ _
      have : l = [] := List.eq_nil_of_length_eq_zero (Nat.le_zero.1 hl)
      subst this
      exact san_nil
    | succ n ih =>
      intro l hl h1 h2
      cases l with
      | nil => exact san_nil
      | cons c t =>
        have ht1 : ':' ∉ t := fun h => h1 (List.mem_cons_of_mem _ h)
        have ht2 : ')' ∉ t := fun h => h2 (List.mem_cons_of_mem _ h)
        have htl : t.length ≤ n := by simp at hl; omega
        by_cases hc : c = '('
        · subst hc
          cases t with
          | nil => exact san_single '('
          | cons c2 t2 =>
            have ht21 : ':' ∉ t2 := fun h => ht1 (List.mem_cons_of_mem _ h)
            have ht22 : ')' ∉ t2 := fun h => ht2 (List.mem_cons_of_mem _ h)
            by_cases hq : c2 = '?'
            · subst hq
              have hsc : scopedSplit t2 = none := by
                rw [scopedSplit, scanHeader_none_of t2 ?_]
                intro d hd hor
                rcases hor with h | h
                · subst h; exact ht21 hd
                · subst h; exact ht22 hd
              have hmx : matchInlineMix t2 = none := matchInlineMix_none_of_no_paren ht22
              have hof : matchInlineOff t2 = none := matchInlineOff_none_of_no_paren ht22
              have ht2l : t2.length ≤ n := by simp at htl; omega
              rw [san_fallback hsc hmx hof, ih t2 ht2l ht21 ht22]
            · rw [san_paren_ne t2 hq, ih (c2 :: t2) htl ht1 ht2]
        · rw [san_cons_ne t hc, ih t htl ht1 ht2]
  exact key l.length l (le_refl _) h1 h2

/-! ### Prefix-independent behaviour of the sanitizer

The three claim theorems below quantify over *every* position of a group in
*every* pattern.  The lemmas of this section show that the scanner's treatment
of the characters before a group opener depends only on those characters: a
header walk that runs past them meets the opener's `'('` (never a flag
character), and neither anchored match can consume across a `'('`. -/

theorem scanHeader_none_not_mem {t : List Char} (h : scanHeader t = none) :
    ':' ∉ t ∧ ')' ∉ t := by
  induction t with
  | nil => simp
  | cons c cs ih =>
    rw [scanHeader] at h
    by_cases hc : c = ':' ∨ c = ')'
    · simp [hc] at h
    · cases hr : scanHeader cs with
      | some v =>
        obtain ⟨p, d, q⟩ := v
        rw [hr] at h
        simp [hc] at h
      | none =>
        have ht := ih hr
        constructor
        · intro hm
          rcases List.mem_cons.1 hm with hm | hm
          · exact hc (Or.inl hm.symm)
          · exact ht.1 hm
        · intro hm
          rcases List.mem_cons.1 hm with hm | hm
          · exact hc (Or.inr hm.symm)
          · exact ht.2 hm

theorem scanHeader_some_props {t h1 h2 : List Char} {d : Char}
    (h : scanHeader t = some (h1, d, h2)) :
    (∀ c ∈ h1, ¬(c = ':' ∨ c = ')')) ∧ (d = ':' ∨ d = ')') := by
  induction t generalizing h1 with
  | nil => simp [scanHeader] at h
  | cons c cs ih =>
    rw [scanHeader] at h
    by_cases hc : c = ':' ∨ c = ')'
    · simp [hc] at h
      obtain ⟨e1, e2, e3⟩ := h
      subst e1; subst e2
      exact ⟨by simp, hc⟩
    · simp [hc] at h
      cases hr : scanHeader cs with
      | none => rw [hr] at h; simp at h
      | some v =>
        obtain ⟨p, d0, q⟩ := v
        rw [hr] at h
        simp at h
        obtain ⟨e1, e2, e3⟩ := h
        subst e1; subst e2; subst e3
        have ht := ih hr
        refine ⟨?_, ht.2⟩
        intro c2 hc2
        rcases List.mem_cons.1 hc2 with hm | hm
        · subst hm; exact hc
        · exact ht.1 c2 hm

theorem scanHeader_append_delim {t h1 h2 : List Char} {d : Char} (Y : List Char)
    (h : scanHeader t = some (h1, d, h2)) :
    scanHeader (t ++ Y) = some (h1, d, h2 ++ Y) := by
  have hp := scanHeader_some_props h
  have hdec := scanHeader_eq_append h
  rw [hdec, List.append_assoc, List.cons_append]
  rw [scanHeader_skip h1 _ hp.1]
  rw [scanHeader]
  simp [hp.2]

theorem scopedSplit_append_colon {t h1 h2 : List Char}
    (h : scanHeader t = some (h1, ':', h2)) (Y : List Char) :
    scopedSplit (t ++ Y) = some (h1, h2 ++ Y) := by
  rw [scopedSplit, scanHeader_append_delim Y h]
  simp

theorem scopedSplit_append_paren {t h1 h2 : List Char}
    (h : scanHeader t = some (h1, ')', h2)) (Y : List Char) :
    scopedSplit (t ++ Y) = none := by
  rw [scopedSplit, scanHeader_append_delim Y h]
  simp

theorem scopedSplit_skip (x l : List Char) (hx : ∀ c ∈ x, ¬(c = ':' ∨ c = ')')) :
    scopedSplit (x ++ l) = (scopedSplit l).map (fun p => (x ++ p.1, p.2)) := by
  rw [scopedSplit, scopedSplit, scanHeader_skip x l hx]
  cases scanHeader l with
  | none => simp
  | some v =>
    obtain ⟨p, d, q⟩ := v
    by_cases hd : d = ':' <;> simp [hd]

theorem flagChar_ne_parens {c : Char} (h : isFlagChar c) : c ≠ '(' ∧ c ≠ ')' := by
  simp only [isFlagChar, Bool.or_eq_true, decide_eq_true_eq] at h
  rcases h with ((h | h) | h) | h <;> subst h <;> exact ⟨by decide, by decide⟩

theorem matchInlineMix_flags {l onl offl r : List Char}
    (h : matchInlineMix l = some (onl, offl, r)) :
    (∀ c ∈ onl, isFlagChar c) ∧ ∀ c ∈ offl, isFlagChar c := by
  simp only [matchInlineMix] at h
  by_cases h0 : l.takeWhile isFlagChar = []
  · simp [h0] at h
  · simp only [h0, if_false] at h
    cases hr1 : l.dropWhile isFlagChar with
    | nil => rw [hr1] at h; simp at h
    | cons c r2 =>
      rw [hr1] at h
      by_cases hc : c = ')'
      · subst hc
        simp only [if_true] at h
        obtain ⟨e1, e2, e3⟩ := by simpa using h
        subst e1; subst e2
        exact ⟨fun c hc => List.mem_takeWhile_imp hc, by simp⟩
      · simp only [hc, if_false] at h
        by_cases hcm : c = '-'
        · subst hcm
          simp only [if_true] at h
          by_cases h2 : r2.takeWhile isFlagChar = []
          · simp [h2] at h
          · simp only [h2, if_false] at h
            cases hr3 : r2.dropWhile isFlagChar with
            | nil => rw [hr3] at h; simp at h
            | cons d r4 =>
              rw [hr3] at h
              by_cases hd : d = ')'
              · subst hd
                simp only [if_true] at h
                obtain ⟨e1, e2, e3⟩ := by simpa using h
                subst e1; subst e2
                exact ⟨fun c hc => List.mem_takeWhile_imp hc,
                  fun c hc => List.mem_takeWhile_imp hc⟩
              · simp [hd] at h
        · simp [hcm] at h

theorem matchInlineOff_flags {l offl r : List Char}
    (h : matchInlineOff l = some (offl, r)) : ∀ c ∈ offl, isFlagChar c := by
  cases l with
  | nil => simp [matchInlineOff] at h
  | cons c cs =>
    simp only [matchInlineOff] at h
    by_cases hc : c = '-'
    · subst hc
      simp only [if_true] at h
      by_cases h0 : cs.takeWhile isFlagChar = []
      · simp [h0] at h
      · simp only [h0, if_false] at h
        cases hr : cs.dropWhile isFlagChar with
        | nil => rw [hr] at h; simp at h
        | cons d r3 =>
          rw [hr] at h
          by_cases hd : d = ')'
          · subst hd
            simp only [if_true] at h
            obtain ⟨e1, e2⟩ := by simpa using h
            subst e1
            exact fun c hc => List.mem_takeWhile_imp hc
          · simp [hd] at h
    · simp [hc] at h

theorem matchInlineMix_blocked {x z : List Char} (hx : ')' ∉ x) :
    matchInlineMix (x ++ '(' :: z) = none := by
  cases hm : matchInlineMix (x ++ '(' :: z) with
  | none => rfl
  | some v =>
    exfalso
    obtain ⟨onl, offl, r⟩ := v
    have hd := matchInlineMix_eq_append hm
    have hf := matchInlineMix_flags hm
    have hA : ∀ c ∈ onl ++ (if offl = [] then [] else '-' :: offl),
        c ≠ '(' ∧ c ≠ ')' := by
      intro c hc
      rcases List.mem_append.1 hc with hc | hc
      · exact flagChar_ne_parens (hf.1 c hc)
      · by_cases ho : offl = []
        · simp [ho] at hc
        · simp only [ho, if_false] at hc
          rcases List.mem_cons.1 hc with hc | hc
          · subst hc; exact ⟨by decide, by decide⟩
          · exact flagChar_ne_parens (hf.2 c hc)
    rcases List.append_eq_append_iff.1 hd with ⟨a2, hA2, hb⟩ | ⟨c2, hx2, hdd⟩
    · cases a2 with
      | nil =>
        simp at hb
      | cons a0 a2t =>
        have ha0 : a0 = '(' := by
          have := congrArg (fun l => l.head?) hb
          simpa using this.symm
        subst ha0
        have : ('(' : Char) ∈ onl ++ (if offl = [] then [] else '-' :: offl) := by
          rw [hA2]; simp
        exact (hA '(' this).1 rfl
    · cases c2 with
      | nil =>
        simp at hdd
      | cons c0 c2t =>
        have hc0 : c0 = ')' := by
          have := congrArg (fun l => l.head?) hdd
          simpa using this.symm
        subst hc0
        exact hx (by rw [hx2]; simp)

theorem matchInlineOff_blocked {x z : List Char} (hx : ')' ∉ x) :
    matchInlineOff (x ++ '(' :: z) = none := by
  cases hm : matchInlineOff (x ++ '(' :: z) with
  | none => rfl
  | some v =>
    exfalso
    obtain ⟨offl, r⟩ := v
    have hd := matchInlineOff_eq_append hm
    have hf := matchInlineOff_flags hm
    have hA : ∀ c ∈ '-' :: offl, c ≠ '(' ∧ c ≠ ')' := by
      intro c hc
      rcases List.mem_cons.1 hc with hc | hc
      · subst hc; exact ⟨by decide, by decide⟩
      · exact flagChar_ne_parens (hf c hc)
    rcases List.append_eq_append_iff.1 hd with ⟨a2, hA2, hb⟩ | ⟨c2, hx2, hdd⟩
    · cases a2 with
      | nil =>
        simp at hb
      | cons a0 a2t =>
        have ha0 : a0 = '(' := by
          have := congrArg (fun l => l.head?) hb
          simpa using this.symm
        subst ha0
        have : ('(' : Char) ∈ '-' :: offl := by rw [hA2]; simp
        exact (hA '(' this).1 rfl
    · cases c2 with
      | nil =>
        simp at hdd
      | cons c0 c2t =>
        have hc0 : c0 = ')' := by
          have := congrArg (fun l => l.head?) hdd
          simpa using this.symm
        subst hc0
        exact hx (by rw [hx2]; simp)

theorem dropWhile_head_false {p : Char → Bool} {l : List Char} {c : Char}
    {r : List Char} (h : l.dropWhile p = c :: r) : p c = false := by
  induction l with
  | nil => simp at h
  | cons a t ih =>
    rw [List.dropWhile_cons] at h
    by_cases ha : p a
    · simp [ha] at h
      exact ih h
    · simp [ha] at h
      obtain ⟨e1, _⟩ := h
      subst e1
      simpa using ha

/-- The anchored mixed match looks no further than the first `')'`: on a text
`h1 ++ ')' :: Z` whose part `h1` before the first `')'` is fixed, the match
outcome is that of `h1 ++ [')']` with the remainder replaced by `Z`. -/
theorem matchInlineMix_first_paren (h1 Z : List Char) (hp : ')' ∉ h1) :
    matchInlineMix (h1 ++ ')' :: Z) =
      (matchInlineMix (h1 ++ [')'])).map (fun p => (p.1, p.2.1, Z)) := by
  have hparen : isFlagChar ')' = false := by decide
  cases hr : h1.dropWhile isFlagChar with
  | nil =>
    have hall : ∀ c ∈ h1, isFlagChar c := List.dropWhile_eq_nil_iff.1 hr
    have t1 : (h1 ++ ')' :: Z).takeWhile isFlagChar = h1 := by
      rw [List.takeWhile_append_of_pos hall, List.takeWhile_cons]
      simp [hparen]
    have d1 : (h1 ++ ')' :: Z).dropWhile isFlagChar = ')' :: Z := by
      rw [List.dropWhile_append_of_pos hall, List.dropWhile_cons]
      simp [hparen]
    have t2 : (h1 ++ [')']).takeWhile isFlagChar = h1 := by
      rw [List.takeWhile_append_of_pos hall, List.takeWhile_cons]
      simp [hparen]
    have d2 : (h1 ++ [')']).dropWhile isFlagChar = [')'] := by
      rw [List.dropWhile_append_of_pos hall, List.dropWhile_cons]
      simp [hparen]
    simp only [matchInlineMix, t1, d1, t2, d2]
    by_cases h0 : h1 = [] <;> simp [h0]
  | cons b B =>
    have hb : isFlagChar b = false := dropWhile_head_false hr
    have hbmem : b ∈ h1 := by
      have hm : b ∈ h1.dropWhile isFlagChar := by rw [hr]; simp
      exact (List.dropWhile_sublist _).subset hm
    have hbp : b ≠ ')' := fun he => hp (he ▸ hbmem)
    have hBsub : ∀ c ∈ B, c ∈ h1 := by
      intro c hc
      have hm : c ∈ h1.dropWhile isFlagChar := by rw [hr]; simp [hc]
      exact (List.dropWhile_sublist _).subset hm
    have hA : ∀ c ∈ h1.takeWhile isFlagChar, isFlagChar c :=
      fun c hc => List.mem_takeWhile_imp hc
    have hsplit : h1 = h1.takeWhile isFlagChar ++ b :: B := by
      conv_lhs => rw [← List.takeWhile_append_dropWhile (p := isFlagChar) (l := h1)]
      rw [hr]
    have t1 : (h1 ++ ')' :: Z).takeWhile isFlagChar = h1.takeWhile isFlagChar := by
      conv_lhs => rw [hsplit]
      rw [List.append_assoc, List.takeWhile_append_of_pos hA, List.cons_append,
        List.takeWhile_cons]
      simp [hb]
    have d1 : (h1 ++ ')' :: Z).dropWhile isFlagChar = b :: (B ++ ')' :: Z) := by
      conv_lhs => rw [hsplit]
      rw [List.append_assoc, List.dropWhile_append_of_pos hA, List.cons_append,
        List.dropWhile_cons]
      simp [hb]
    have t2 : (h1 ++ [')']).takeWhile isFlagChar = h1.takeWhile isFlagChar := by
      conv_lhs => rw [hsplit]
      rw [List.append_assoc, List.takeWhile_append_of_pos hA, List.cons_append,
        List.takeWhile_cons]
      simp [hb]
    have d2 : (h1 ++ [')']).dropWhile isFlagChar = b :: (B ++ [')']) := by
      conv_lhs => rw [hsplit]
      rw [List.append_assoc, List.dropWhile_append_of_pos hA, List.cons_append,
        List.dropWhile_cons]
      simp [hb]
    simp only [matchInlineMix, t1, d1, t2, d2]
    by_cases h0 : h1.takeWhile isFlagChar = []
    · simp [h0]
    · simp only [h0, if_false]
      by_cases hbd : b = '-'
      · subst hbd
        simp only [hbp, if_false, if_true]
        cases hr2 : B.dropWhile isFlagChar with
        | nil =>
          have hall2 : ∀ c ∈ B, isFlagChar c := List.dropWhile_eq_nil_iff.1 hr2
          have u1 : (B ++ ')' :: Z).takeWhile isFlagChar = B := by
            rw [List.takeWhile_append_of_pos hall2, List.takeWhile_cons]
            simp [hparen]
          have v1 : (B ++ ')' :: Z).dropWhile isFlagChar = ')' :: Z := by
            rw [List.dropWhile_append_of_pos hall2, List.dropWhile_cons]
            simp [hparen]
          have u2 : (B ++ [')']).takeWhile isFlagChar = B := by
            rw [List.takeWhile_append_of_pos hall2, List.takeWhile_cons]
            simp [hparen]
          have v2 : (B ++ [')']).dropWhile isFlagChar = [')'] := by
            rw [List.dropWhile_append_of_pos hall2, List.dropWhile_cons]
            simp [hparen]
          simp only [u1, v1, u2, v2]
          by_cases hB0 : B = [] <;> simp [hB0]
        | cons b2 B2 =>
          have hb2 : isFlagChar b2 = false := dropWhile_head_false hr2
          have hb2mem : b2 ∈ B := by
            have hm : b2 ∈ B.dropWhile isFlagChar := by rw [hr2]; simp
            exact (List.dropWhile_sublist _).subset hm
          have hb2p : b2 ≠ ')' := fun he => hp (he ▸ hBsub b2 hb2mem)
          have hA2 : ∀ c ∈ B.takeWhile isFlagChar, isFlagChar c :=
            fun c hc => List.mem_takeWhile_imp hc
          have hsplit2 : B = B.takeWhile isFlagChar ++ b2 :: B2 := by
            conv_lhs => rw [← List.takeWhile_append_dropWhile (p := isFlagChar) (l := B)]
            rw [hr2]
          have u1 : (B ++ ')' :: Z).takeWhile isFlagChar = B.takeWhile isFlagChar := by
            conv_lhs => rw [hsplit2]
            rw [List.append_assoc, List.takeWhile_append_of_pos hA2, List.cons_append,
              List.takeWhile_cons]
            simp [hb2]
          have v1 : (B ++ ')' :: Z).dropWhile isFlagChar = b2 :: (B2 ++ ')' :: Z) := by
            conv_lhs => rw [hsplit2]
            rw [List.append_assoc, List.dropWhile_append_of_pos hA2, List.cons_append,
              List.dropWhile_cons]
            simp [hb2]
          have u2 : (B ++ [')']).takeWhile isFlagChar = B.takeWhile isFlagChar := by
            conv_lhs => rw [hsplit2]
            rw [List.append_assoc, List.takeWhile_append_of_pos hA2, List.cons_append,
              List.takeWhile_cons]
            simp [hb2]
          have v2 : (B ++ [')']).dropWhile isFlagChar = b2 :: (B2 ++ [')']) := by
            conv_lhs => rw [hsplit2]
            rw [List.append_assoc, List.dropWhile_append_of_pos hA2, List.cons_append,
              List.dropWhile_cons]
            simp [hb2]
          simp only [u1, v1, u2, v2]
          by_cases hB0 : B.takeWhile isFlagChar = [] <;> simp [hB0, hb2p]
      · simp [hbp, hbd]

/-- Companion of `matchInlineMix_first_paren` for the pure negation match. -/
theorem matchInlineOff_first_paren (h1 Z : List Char) (hp : ')' ∉ h1) :
    matchInlineOff (h1 ++ ')' :: Z) =
      (matchInlineOff (h1 ++ [')'])).map (fun p => (p.1, Z)) := by
  have hparen : isFlagChar ')' = false := by decide
  cases h1 with
  | nil => simp [matchInlineOff]
  | cons c h1t =>
    have hp1 : ')' ∉ h1t := fun hm => hp (List.mem_cons_of_mem _ hm)
    simp only [List.cons_append, matchInlineOff]
    by_cases hc : c = '-'
    · simp only [hc, if_true]
      cases hr : h1t.dropWhile isFlagChar with
      | nil =>
        have hall : ∀ c2 ∈ h1t, isFlagChar c2 := List.dropWhile_eq_nil_iff.1 hr
        have u1 : (h1t ++ ')' :: Z).takeWhile isFlagChar = h1t := by
          rw [List.takeWhile_append_of_pos hall, List.takeWhile_cons]
          simp [hparen]
        have v1 : (h1t ++ ')' :: Z).dropWhile isFlagChar = ')' :: Z := by
          rw [List.dropWhile_append_of_pos hall, List.dropWhile_cons]
          simp [hparen]
        have u2 : (h1t ++ [')']).takeWhile isFlagChar = h1t := by
          rw [List.takeWhile_append_of_pos hall, List.takeWhile_cons]
          simp [hparen]
        have v2 : (h1t ++ [')']).dropWhile isFlagChar = [')'] := by
          rw [List.dropWhile_append_of_pos hall, List.dropWhile_cons]
          simp [hparen]
        simp only [u1, v1, u2, v2]
        by_cases h0 : h1t = [] <;> simp [h0]
      | cons b B =>
        have hb : isFlagChar b = false := dropWhile_head_false hr
        have hbmem : b ∈ h1t := by
          have hm : b ∈ h1t.dropWhile isFlagChar := by rw [hr]; simp
          exact (List.dropWhile_sublist _).subset hm
        have hbp : b ≠ ')' := fun he => hp1 (he ▸ hbmem)
        have hA : ∀ c2 ∈ h1t.takeWhile isFlagChar, isFlagChar c2 :=
          fun c2 hc2 => List.mem_takeWhile_imp hc2
        have hsplit : h1t = h1t.takeWhile isFlagChar ++ b :: B := by
          conv_lhs => rw [← List.takeWhile_append_dropWhile (p := isFlagChar) (l := h1t)]
          rw [hr]
        have u1 : (h1t ++ ')' :: Z).takeWhile isFlagChar = h1t.takeWhile isFlagChar := by
          conv_lhs => rw [hsplit]
          rw [List.append_assoc, List.takeWhile_append_of_pos hA, List.cons_append,
            List.takeWhile_cons]
          simp [hb]
        have v1 : (h1t ++ ')' :: Z).dropWhile isFlagChar = b :: (B ++ ')' :: Z) := by
          conv_lhs => rw [hsplit]
          rw [List.append_assoc, List.dropWhile_append_of_pos hA, List.cons_append,
            List.dropWhile_cons]
          simp [hb]
        have u2 : (h1t ++ [')']).takeWhile isFlagChar = h1t.takeWhile isFlagChar := by
          conv_lhs => rw [hsplit]
          rw [List.append_assoc, List.takeWhile_append_of_pos hA, List.cons_append,
            List.takeWhile_cons]
          simp [hb]
        have v2 : (h1t ++ [')']).dropWhile isFlagChar = b :: (B ++ [')']) := by
          conv_lhs => rw [hsplit]
          rw [List.append_assoc, List.dropWhile_append_of_pos hA, List.cons_append,
            List.dropWhile_cons]
          simp [hb]
        simp only [u1, v1, u2, v2]
        by_cases h0 : h1t.takeWhile isFlagChar = [] <;> simp [h0, hbp]
    · simp [hc]

/-- The prefix's own contribution to sanitization: what the sanitizer emits
for the characters before a group opener.  A `'('` provides exactly the
lookahead any group opener provides (a header walk meets no `':'`/`')'` in it,
and no anchored match can consume across it), so the contribution is computed
by sanitizing `pre` followed by a lone `'('` sentinel — which is copied
verbatim as the final output character and adds no flags — and dropping that
final character. -/
def sanPre (pre : List Char) : List Char × Nat :=
  ((sanitizeInlineFlags (pre ++ ['('])).1.dropLast,
   (sanitizeInlineFlags (pre ++ ['('])).2)

theorem sanPre_nil : sanPre [] = ([], 0) := by
  rw [sanPre, List.nil_append, san_single]
  rfl

/-- A delimiter-free run directly followed by an unscoped mixed group is
copied verbatim; the group is dropped whole and contributes exactly its
on-flags. -/
theorem san_df_mixGroup (onl offl rest : List Char) (hon : onl ≠ [])
    (honf : ∀ c ∈ onl, isFlagChar c) (hofff : ∀ c ∈ offl, isFlagChar c) :
    ∀ x : List Char, ':' ∉ x → ')' ∉ x →
    sanitizeInlineFlags (x ++ (inlineMixGroup onl offl ++ rest)) =
      (x ++ (sanitizeInlineFlags rest).1,
       onBits onl ||| (sanitizeInlineFlags rest).2) := by
  have hg : inlineMixGroup onl offl ++ rest = '(' :: '?' :: mixBody onl offl rest :=
    mixGroup_append onl offl rest
  have hbase : sanitizeInlineFlags (inlineMixGroup onl offl ++ rest) =
      ((sanitizeInlineFlags rest).1,
       onBits onl ||| (sanitizeInlineFlags rest).2) := by
    rw [hg]
    exact san_mix (scopedSplit_mixShape onl offl rest honf hofff)
      (matchInlineMix_mixShape onl offl rest hon honf hofff)
  have key : ∀ n, ∀ x : List Char, x.length ≤ n → ':' ∉ x → ')' ∉ x →
      sanitizeInlineFlags (x ++ (inlineMixGroup onl offl ++ rest)) =
        (x ++ (sanitizeInlineFlags rest).1,
         onBits onl ||| (sanitizeInlineFlags rest).2) := by
    intro n
    induction n with
    | zero =>
      intro x hl _ _
      have hx : x = [] := List.eq_nil_of_length_eq_zero (Nat.le_zero.1 hl)
      subst hx
      rw [List.nil_append, hbase, List.nil_append]
    | succ n ih =>
      intro x hl hx1 hx2
      cases x with
      | nil => rw [List.nil_append, hbase, List.nil_append]
      | cons c t =>
        have ht1 : ':' ∉ t := fun h => hx1 (List.mem_cons_of_mem _ h)
        have ht2 : ')' ∉ t := fun h => hx2 (List.mem_cons_of_mem _ h)
        have htl : t.length ≤ n := by simp at hl; omega
        by_cases hc : c = '('
        · subst hc
          cases t with
          | nil =>
            rw [List.cons_append, List.nil_append, hg,
              san_paren_ne _ (by decide), ← hg, hbase]
            rfl
          | cons c2 t2 =>
            have ht21 : ':' ∉ t2 := fun h => ht1 (List.mem_cons_of_mem _ h)
            have ht22 : ')' ∉ t2 := fun h => ht2 (List.mem_cons_of_mem _ h)
            by_cases hq : c2 = '?'
            · subst hq
              have hb : (('(' :: '?' :: t2) ++ (inlineMixGroup onl offl ++ rest)) =
                  '(' :: '?' :: (t2 ++ ('(' :: '?' :: mixBody onl offl rest)) := by
                rw [hg]; rfl
              rw [hb]
              have hsc : scopedSplit (t2 ++ ('(' :: '?' :: mixBody onl offl rest)) =
                  none := by
                have hre : t2 ++ ('(' :: '?' :: mixBody onl offl rest) =
                    (t2 ++ ['(', '?']) ++ mixBody onl offl rest := by simp
                rw [hre, scopedSplit_skip _ _ ?_,
                  scopedSplit_mixShape onl offl rest honf hofff]
                · rfl
                · intro d hd hor
                  rcases List.mem_append.1 hd with hm | hm
                  · rcases hor with h | h
                    · exact ht21 (h ▸ hm)
                    · exact ht22 (h ▸ hm)
                  · rcases hor with h | h <;> subst h <;> simp at hm
              have hmx : matchInlineMix (t2 ++ ('(' :: '?' :: mixBody onl offl rest)) =
                  none := matchInlineMix_blocked ht22
              have hof : matchInlineOff (t2 ++ ('(' :: '?' :: mixBody onl offl rest)) =
                  none := matchInlineOff_blocked ht22
              rw [san_fallback hsc hmx hof]
              have ht2l : t2.length ≤ n := by simp at htl; omega
              have hih := ih t2 ht2l ht21 ht22
              rw [hg] at hih
              rw [hih]
              rfl
            · rw [List.cons_append, List.cons_append, san_paren_ne _ hq,
                ← List.cons_append, ih (c2 :: t2) htl ht1 ht2]
              rfl
        · rw [List.cons_append, san_cons_ne _ hc, ih t htl ht1 ht2]
          rfl
  intro x hx1 hx2
  exact key x.length x (le_refl _) hx1 hx2

/-- A delimiter-free run directly followed by a scoped group header is
swallowed verbatim into the scoped chunk: everything up to and including the
`':'` is copied unchanged and scanning resumes after the header. -/
theorem san_df_scoped (hdr rest : List Char)
    (hhdr : ∀ c ∈ hdr, c ≠ ':' ∧ c ≠ ')') :
    ∀ x : List Char, ':' ∉ x → ')' ∉ x →
    sanitizeInlineFlags (x ++ (('(' :: '?' :: (hdr ++ [':'])) ++ rest)) =
      (x ++ (('(' :: '?' :: (hdr ++ [':'])) ++ (sanitizeInlineFlags rest).1),
       (sanitizeInlineFlags rest).2) := by
  have hbase : sanitizeInlineFlags (('(' :: '?' :: (hdr ++ [':'])) ++ rest) =
      (('(' :: '?' :: (hdr ++ [':'])) ++ (sanitizeInlineFlags rest).1,
       (sanitizeInlineFlags rest).2) := by
    have hre : ('(' :: '?' :: (hdr ++ [':'])) ++ rest =
        '(' :: '?' :: (hdr ++ ':' :: rest) := by simp
    rw [hre, san_scoped (scopedSplit_scopedShape hdr rest ?_)]
    · simp
    · intro c hc hor
      rcases hor with h | h
      · exact absurd h (hhdr c hc).1
      · exact absurd h (hhdr c hc).2
  have key : ∀ n, ∀ x : List Char, x.length ≤ n → ':' ∉ x → ')' ∉ x →
      sanitizeInlineFlags (x ++ (('(' :: '?' :: (hdr ++ [':'])) ++ rest)) =
        (x ++ (('(' :: '?' :: (hdr ++ [':'])) ++ (sanitizeInlineFlags rest).1),
         (sanitizeInlineFlags rest).2) := by
    intro n
    induction n with
    | zero =>
      intro x hl _ _
      have hx : x = [] := List.eq_nil_of_length_eq_zero (Nat.le_zero.1 hl)
      subst hx
      rw [List.nil_append, hbase, List.nil_append]
    | succ n ih =>
      intro x hl hx1 hx2
      cases x with
      | nil => rw [List.nil_append, hbase, List.nil_append]
      | cons c t =>
        have ht1 : ':' ∉ t := fun h => hx1 (List.mem_cons_of_mem _ h)
        have ht2 : ')' ∉ t := fun h => hx2 (List.mem_cons_of_mem _ h)
        have htl : t.length ≤ n := by simp at hl; omega
        by_cases hc : c = '('
        · subst hc
          cases t with
          | nil =>
            rw [List.cons_append, List.nil_append,
              show ('(' :: '?' :: (hdr ++ [':'])) ++ rest =
                '(' :: ('?' :: ((hdr ++ [':']) ++ rest)) from rfl,
              san_paren_ne _ (by decide),
              show ('(' : Char) :: '?' :: ((hdr ++ [':']) ++ rest) =
                ('(' :: '?' :: (hdr ++ [':'])) ++ rest from rfl,
              hbase]
            rfl
          | cons c2 t2 =>
            have ht21 : ':' ∉ t2 := fun h => ht1 (List.mem_cons_of_mem _ h)
            have ht22 : ')' ∉ t2 := fun h => ht2 (List.mem_cons_of_mem _ h)
            by_cases hq : c2 = '?'
            · subst hq
              have hshape : (('(' :: '?' :: t2) ++
                    (('(' :: '?' :: (hdr ++ [':'])) ++ rest)) =
                  '(' :: '?' :: ((t2 ++ '(' :: '?' :: hdr) ++ ':' :: rest) := by
                simp
              rw [hshape,
                san_scoped (scopedSplit_scopedShape (t2 ++ '(' :: '?' :: hdr) rest ?_)]
              · simp
              · intro c hc hor
                rcases List.mem_append.1 hc with hm | hm
                · rcases hor with h | h
                  · exact ht21 (h ▸ hm)
                  · exact ht22 (h ▸ hm)
                · rcases List.mem_cons.1 hm with hm | hm
                  · subst hm
                    rcases hor with h | h <;> exact absurd h (by decide)
                  · rcases List.mem_cons.1 hm with hm | hm
                    · subst hm
                      rcases hor with h | h <;> exact absurd h (by decide)
                    · rcases hor with h | h
                      · exact absurd h (hhdr c hm).1
                      · exact absurd h (hhdr c hm).2
            · rw [List.cons_append, List.cons_append, san_paren_ne _ hq,
                ← List.cons_append, ih (c2 :: t2) htl ht1 ht2]
              rfl
        · rw [List.cons_append, san_cons_ne _ hc, ih t htl ht1 ht2]
          rfl
  intro x hx1 hx2
  exact key x.length x (le_refl _) hx1 hx2

/-- Master prefix decomposition: for any continuation `k` that begins with a
`'('` and is uniform after delimiter-free runs (hypothesis `hJ`), sanitizing
`pre ++ k` yields the prefix contribution `sanPre pre` — a function of `pre`
alone — followed by `k`'s own contribution, with the flags OR-ed. -/
theorem san_prefix_aux :
    ∀ n : Nat, ∀ pre : List Char, pre.length ≤ n →
    ∀ (k T1 : List Char) (T2 : Nat), (∃ kt, k = '(' :: kt) →
    (∀ x : List Char, ':' ∉ x → ')' ∉ x →
      sanitizeInlineFlags (x ++ k) = (x ++ T1, T2)) →
    sanitizeInlineFlags (pre ++ k) =
      ((sanPre pre).1 ++ T1, (sanPre pre).2 ||| T2) := by
  intro n
  induction n with
  | zero =>
    intro pre hl k T1 T2 hk hJ
    have hx : pre = [] := List.eq_nil_of_length_eq_zero (Nat.le_zero.1 hl)
    subst hx
    have hbase := hJ [] (by simp) (by simp)
    rw [List.nil_append, List.nil_append] at hbase
    rw [List.nil_append, hbase, sanPre_nil]
    simp
  | succ n ih =>
    intro pre hl k T1 T2 hk hJ
    obtain ⟨kt, hkt⟩ := hk
    have ihs : ∀ pre2 : List Char, pre2.length ≤ n →
        sanitizeInlineFlags (pre2 ++ ['(']) =
          ((sanPre pre2).1 ++ ['('], (sanPre pre2).2) := by
      intro pre2 hl2
      have hJ0 : ∀ x : List Char, ':' ∉ x → ')' ∉ x →
          sanitizeInlineFlags (x ++ ['(']) = (x ++ ['('], 0) := by
        intro x h1 h2
        refine san_verbatim (x ++ ['(']) ?_ ?_
        · intro hm
          rcases List.mem_append.1 hm with hm | hm
          · exact h1 hm
          · simp at hm
        · intro hm
          rcases List.mem_append.1 hm with hm | hm
          · exact h2 hm
          · simp at hm
      have := ih pre2 hl2 ['('] ['('] 0 ⟨[], rfl⟩ hJ0
      simpa using this
    cases pre with
    | nil =>
      have hbase := hJ [] (by simp) (by simp)
      rw [List.nil_append, List.nil_append] at hbase
      rw [List.nil_append, hbase, sanPre_nil]
      simp
    | cons c pre1 =>
      by_cases hc : c = '('
      · subst hc
        cases pre1 with
        | nil =>
          have hspl : sanPre ['('] = (['('], 0) := by
            rw [sanPre,
              show (['('] ++ ['('] : List Char) = '(' :: '(' :: ([] : List Char) from rfl,
              san_paren_ne _ (by decide), san_single]
            rfl
          rw [show (['('] : List Char) ++ k = '(' :: k from rfl, hkt,
            san_paren_ne _ (by decide), ← hkt]
          have hbase := hJ [] (by simp) (by simp)
          rw [List.nil_append, List.nil_append] at hbase
          rw [hbase, hspl]
          simp
        | cons c2 pre2 =>
          by_cases hq : c2 = '?'
          · subst hq
            have hplen : pre2.length + 2 ≤ n + 1 := by simpa using hl
            cases hsh : scanHeader pre2 with
            | none =>
              have hdf := scanHeader_none_not_mem hsh
              have hx1 : ':' ∉ '(' :: '?' :: pre2 := by
                intro hm
                rcases List.mem_cons.1 hm with hm | hm
                · exact absurd hm (by decide)
                · rcases List.mem_cons.1 hm with hm | hm
                  · exact absurd hm (by decide)
                  · exact hdf.1 hm
              have hx2 : ')' ∉ '(' :: '?' :: pre2 := by
                intro hm
                rcases List.mem_cons.1 hm with hm | hm
                · exact absurd hm (by decide)
                · rcases List.mem_cons.1 hm with hm | hm
                  · exact absurd hm (by decide)
                  · exact hdf.2 hm
              have hspv : sanPre ('(' :: '?' :: pre2) = ('(' :: '?' :: pre2, 0) := by
                have e1 : sanitizeInlineFlags (('(' :: '?' :: pre2) ++ ['(']) =
                    (('(' :: '?' :: pre2) ++ ['('], 0) := by
                  refine san_verbatim _ ?_ ?_
                  · intro hm
                    rcases List.mem_append.1 hm with hm | hm
                    · exact hx1 hm
                    · simp at hm
                  · intro hm
                    rcases List.mem_append.1 hm with hm | hm
                    · exact hx2 hm
                    · simp at hm
                conv_lhs => rw [sanPre]
                rw [e1, List.dropLast_concat]
              rw [hJ ('(' :: '?' :: pre2) hx1 hx2, hspv]
              simp
            | some v =>
              obtain ⟨h1, d, h2⟩ := v
              have hprops := scanHeader_some_props hsh
              have hdec := scanHeader_eq_append hsh
              have hh2 : h2.length ≤ n := by
                have hlen := congrArg List.length hdec
                simp at hlen
                omega
              by_cases hd : d = ':'
              · subst hd
                have hssk := scopedSplit_append_colon hsh k
                have hss0 := scopedSplit_append_colon hsh ['(']
                rw [show ('(' :: '?' :: pre2) ++ k = '(' :: '?' :: (pre2 ++ k) from rfl,
                  san_scoped hssk, ih h2 hh2 k T1 T2 ⟨kt, hkt⟩ hJ]
                have e1 : sanitizeInlineFlags (('(' :: '?' :: pre2) ++ ['(']) =
                    (('(' :: '?' :: (h1 ++ ':' :: (sanPre h2).1)) ++ ['('],
                     (sanPre h2).2) := by
                  rw [show ('(' :: '?' :: pre2) ++ ['('] =
                      '(' :: '?' :: (pre2 ++ ['(']) from rfl,
                    san_scoped hss0, ihs h2 hh2]
                  simp
                have hspv : sanPre ('(' :: '?' :: pre2) =
                    ('(' :: '?' :: (h1 ++ ':' :: (sanPre h2).1), (sanPre h2).2) := by
                  conv_lhs => rw [sanPre]
                  rw [e1, List.dropLast_concat]
                rw [hspv]
                simp
              · have hd2 : d = ')' := by
                  rcases hprops.2 with h | h
                  · exact absurd h hd
                  · exact h
                subst hd2
                have hp1 : ')' ∉ h1 := fun hm => (hprops.1 ')' hm) (Or.inr rfl)
                have hsnk := scopedSplit_append_paren hsh k
                have hsn0 := scopedSplit_append_paren hsh ['(']
                have hassoc : ∀ Y : List Char, pre2 ++ Y = h1 ++ ')' :: (h2 ++ Y) := by
                  intro Y
                  rw [hdec]
                  simp
                cases hmc : matchInlineMix (h1 ++ [')']) with
                | some v2 =>
                  obtain ⟨on1, off1, rem⟩ := v2
                  have hmk : matchInlineMix (pre2 ++ k) =
                      some (on1, off1, h2 ++ k) := by
                    rw [hassoc k, matchInlineMix_first_paren h1 (h2 ++ k) hp1, hmc]
                    rfl
                  have hm0 : matchInlineMix (pre2 ++ ['(']) =
                      some (on1, off1, h2 ++ ['(']) := by
                    rw [hassoc ['('], matchInlineMix_first_paren h1 (h2 ++ ['(']) hp1,
                      hmc]
                    rfl
                  rw [show ('(' :: '?' :: pre2) ++ k =
                      '(' :: '?' :: (pre2 ++ k) from rfl,
                    san_mix hsnk hmk, ih h2 hh2 k T1 T2 ⟨kt, hkt⟩ hJ]
                  have e1 : sanitizeInlineFlags (('(' :: '?' :: pre2) ++ ['(']) =
                      ((sanPre h2).1 ++ ['('], onBits on1 ||| (sanPre h2).2) := by
                    rw [show ('(' :: '?' :: pre2) ++ ['('] =
                        '(' :: '?' :: (pre2 ++ ['(']) from rfl,
                      san_mix hsn0 hm0, ihs h2 hh2]
                  have hspv : sanPre ('(' :: '?' :: pre2) =
                      ((sanPre h2).1, onBits on1 ||| (sanPre h2).2) := by
                    conv_lhs => rw [sanPre]
                    rw [e1, List.dropLast_concat]
                  rw [hspv]
                  simp [Nat.or_assoc]
                | none =>
                  cases hoc : matchInlineOff (h1 ++ [')']) with
                  | some v2 =>
                    obtain ⟨off1, rem⟩ := v2
                    have hmk : matchInlineMix (pre2 ++ k) = none := by
                      rw [hassoc k, matchInlineMix_first_paren h1 (h2 ++ k) hp1, hmc]
                      rfl
                    have hm0 : matchInlineMix (pre2 ++ ['(']) = none := by
                      rw [hassoc ['('], matchInlineMix_first_paren h1 (h2 ++ ['(']) hp1,
                        hmc]
                      rfl
                    have hok : matchInlineOff (pre2 ++ k) = some (off1, h2 ++ k) := by
                      rw [hassoc k, matchInlineOff_first_paren h1 (h2 ++ k) hp1, hoc]
                      rfl
                    have ho0 : matchInlineOff (pre2 ++ ['(']) =
                        some (off1, h2 ++ ['(']) := by
                      rw [hassoc ['('], matchInlineOff_first_paren h1 (h2 ++ ['(']) hp1,
                        hoc]
                      rfl
                    rw [show ('(' :: '?' :: pre2) ++ k =
                        '(' :: '?' :: (pre2 ++ k) from rfl,
                      san_off hsnk hmk hok, ih h2 hh2 k T1 T2 ⟨kt, hkt⟩ hJ]
                    have e1 : sanitizeInlineFlags (('(' :: '?' :: pre2) ++ ['(']) =
                        ((sanPre h2).1 ++ ['('], (sanPre h2).2) := by
                      rw [show ('(' :: '?' :: pre2) ++ ['('] =
                          '(' :: '?' :: (pre2 ++ ['(']) from rfl,
                        san_off hsn0 hm0 ho0, ihs h2 hh2]
                    have hspv : sanPre ('(' :: '?' :: pre2) = sanPre h2 := by
                      conv_lhs => rw [sanPre]
                      rw [e1, List.dropLast_concat]
                    rw [hspv]
                  | none =>
                    have hmk : matchInlineMix (pre2 ++ k) = none := by
                      rw [hassoc k, matchInlineMix_first_paren h1 (h2 ++ k) hp1, hmc]
                      rfl
                    have hm0 : matchInlineMix (pre2 ++ ['(']) = none := by
                      rw [hassoc ['('], matchInlineMix_first_paren h1 (h2 ++ ['(']) hp1,
                        hmc]
                      rfl
                    have hok : matchInlineOff (pre2 ++ k) = none := by
                      rw [hassoc k, matchInlineOff_first_paren h1 (h2 ++ k) hp1, hoc]
                      rfl
                    have ho0 : matchInlineOff (pre2 ++ ['(']) = none := by
                      rw [hassoc ['('], matchInlineOff_first_paren h1 (h2 ++ ['(']) hp1,
                        hoc]
                      rfl
                    have hpl2 : pre2.length ≤ n := by omega
                    rw [show ('(' :: '?' :: pre2) ++ k =
                        '(' :: '?' :: (pre2 ++ k) from rfl,
                      san_fallback hsnk hmk hok, ih pre2 hpl2 k T1 T2 ⟨kt, hkt⟩ hJ]
                    have e1 : sanitizeInlineFlags (('(' :: '?' :: pre2) ++ ['(']) =
                        (('(' :: '?' :: (sanPre pre2).1) ++ ['('],
                         (sanPre pre2).2) := by
                      rw [show ('(' :: '?' :: pre2) ++ ['('] =
                          '(' :: '?' :: (pre2 ++ ['(']) from rfl,
                        san_fallback hsn0 hm0 ho0, ihs pre2 hpl2]
                      simp
                    have hspv : sanPre ('(' :: '?' :: pre2) =
                        ('(' :: '?' :: (sanPre pre2).1, (sanPre pre2).2) := by
                      conv_lhs => rw [sanPre]
                      rw [e1, List.dropLast_concat]
                    rw [hspv]
                    rfl
          · have hpl1 : (c2 :: pre2).length ≤ n := by simp at hl ⊢; omega
            have hih := ih (c2 :: pre2) hpl1 k T1 T2 ⟨kt, hkt⟩ hJ
            rw [List.cons_append] at hih
            rw [show ('(' :: c2 :: pre2) ++ k = '(' :: c2 :: (pre2 ++ k) from rfl,
              san_paren_ne _ hq, hih]
            have hihs := ihs (c2 :: pre2) hpl1
            rw [List.cons_append] at hihs
            have e1 : sanitizeInlineFlags (('(' :: c2 :: pre2) ++ ['(']) =
                (('(' :: (sanPre (c2 :: pre2)).1) ++ ['('],
                 (sanPre (c2 :: pre2)).2) := by
              rw [show ('(' :: c2 :: pre2) ++ ['('] =
                  '(' :: c2 :: (pre2 ++ ['(']) from rfl,
                san_paren_ne _ hq, hihs]
              rfl
            have hspv : sanPre ('(' :: c2 :: pre2) =
                ('(' :: (sanPre (c2 :: pre2)).1, (sanPre (c2 :: pre2)).2) := by
              conv_lhs => rw [sanPre]
              rw [e1, List.dropLast_concat]
            rw [hspv]
            rfl
      · have hpl1 : pre1.length ≤ n := by simp at hl; omega
        rw [List.cons_append, san_cons_ne _ hc, ih pre1 hpl1 k T1 T2 ⟨kt, hkt⟩ hJ]
        have e1 : sanitizeInlineFlags ((c :: pre1) ++ ['(']) =
            ((c :: (sanPre pre1).1) ++ ['('], (sanPre pre1).2) := by
          rw [List.cons_append, san_cons_ne _ hc, ihs pre1 hpl1]
          rfl
        have hspv : sanPre (c :: pre1) = (c :: (sanPre pre1).1, (sanPre pre1).2) := by
          conv_lhs => rw [sanPre]
          rw [e1, List.dropLast_concat]
        rw [hspv]
        rfl

/-- Wrapper for `san_prefix_aux` with the length fuel discharged. -/
theorem san_prefix (pre k T1 : List Char) (T2 : Nat)
    (hk : ∃ kt, k = '(' :: kt)
    (hJ : ∀ x : List Char, ':' ∉ x → ')' ∉ x →
      sanitizeInlineFlags (x ++ k) = (x ++ T1, T2)) :
    sanitizeInlineFlags (pre ++ k) =
      ((sanPre pre).1 ++ T1, (sanPre pre).2 ||| T2) :=
  san_prefix_aux pre.length pre (le_refl _) k T1 T2 hk hJ

/-- **C1.**  For every pattern string — any prefix `pre` whatsoever before the
group — an unscoped mixed inline-flag group `(?on)` / `(?on-off)` with flag
characters drawn from `[imsx]` is removed whole from the sanitizer's output:
the output is the prefix's own contribution `sanPre pre` (a function of `pre`
alone, so the group contributes no characters) followed by the sanitization of
the remainder, and the flag accumulator gains exactly the `on` characters'
flag bits, the `off` characters contributing nothing. -/
theorem gosek_C1 (pre onl offl rest : List Char) (hon : onl ≠ [])
    (honf : ∀ c ∈ onl, isFlagChar c) (hofff : ∀ c ∈ offl, isFlagChar c) :
    sanitizeInlineFlags (pre ++ inlineMixGroup onl offl ++ rest) =
      ((sanPre pre).1 ++ (sanitizeInlineFlags rest).1,
       (sanPre pre).2 ||| (onBits onl ||| (sanitizeInlineFlags rest).2)) := by
  rw [List.append_assoc]
  exact san_prefix pre (inlineMixGroup onl offl ++ rest)
    (sanitizeInlineFlags rest).1 (onBits onl ||| (sanitizeInlineFlags rest).2)
    ⟨'?' :: mixBody onl offl rest, mixGroup_append onl offl rest⟩
    (san_df_mixGroup onl offl rest hon honf hofff)

theorem gosek_C1_witness :
    (['i'] : List Char) ≠ [] ∧ (∀ c ∈ (['i'] : List Char), isFlagChar c) ∧
    (∀ c ∈ ([] : List Char), isFlagChar c) ∧
    sanitizeInlineFlags (['(', 'a', ')'] ++ inlineMixGroup ['i'] [] ++ ['b']) =
      ((sanPre ['(', 'a', ')']).1 ++ (sanitizeInlineFlags ['b']).1,
       (sanPre ['(', 'a', ')']).2 |||
         (onBits ['i'] ||| (sanitizeInlineFlags ['b']).2)) :=
  ⟨by decide, by decide, by decide,
    gosek_C1 ['(', 'a', ')'] ['i'] [] ['b'] (by decide) (by decide) (by decide)⟩

/-- **C5.**  For every pattern string — any prefix `pre` whatsoever — on every
scoped group `(?hdr:...)` or `(?:...)` (a `':'` found before a `')'` in the
group header) the sanitizer copies the group header `"(?" ++ hdr ++ ":"` into
the output verbatim (identity transform on that span), contributes no flags to
the accumulator, and resumes normal scanning immediately after the header; the
characters before the group contribute exactly `sanPre pre`. -/
theorem gosek_C5 (pre hdr rest : List Char)
    (hhdr : ∀ c ∈ hdr, c ≠ ':' ∧ c ≠ ')') :
    sanitizeInlineFlags (pre ++ ('(' :: '?' :: (hdr ++ [':'])) ++ rest) =
      ((sanPre pre).1 ++ ('(' :: '?' :: (hdr ++ [':'])) ++
         (sanitizeInlineFlags rest).1,
       (sanPre pre).2 ||| (sanitizeInlineFlags rest).2) := by
  rw [List.append_assoc, List.append_assoc]
  exact san_prefix pre (('(' :: '?' :: (hdr ++ [':'])) ++ rest)
    (('(' :: '?' :: (hdr ++ [':'])) ++ (sanitizeInlineFlags rest).1)
    (sanitizeInlineFlags rest).2
    ⟨('?' :: (hdr ++ [':'])) ++ rest, rfl⟩
    (san_df_scoped hdr rest hhdr)

theorem gosek_C5_witness :
    (∀ c ∈ (['i'] : List Char), c ≠ ':' ∧ c ≠ ')') ∧
    sanitizeInlineFlags
        (['(', 'a', ')'] ++ ('(' :: '?' :: (['i'] ++ [':'])) ++ ['x', ')']) =
      ((sanPre ['(', 'a', ')']).1 ++ ('(' :: '?' :: (['i'] ++ [':'])) ++
         (sanitizeInlineFlags ['x', ')']).1,
       (sanPre ['(', 'a', ')']).2 ||| (sanitizeInlineFlags ['x', ')']).2) :=
  ⟨by decide, gosek_C5 ['(', 'a', ')'] ['i'] ['x', ')'] (by decide)⟩

/-- **C9.**  For every pattern string — any prefix `pre` whatsoever — a `"(?"`
after which neither `':'` nor `')'` ever occurs does not make the sanitizer
fail (the function is total): the unterminated `"(?"` and the whole remainder
are copied verbatim to the output with no flag contribution, the prefix
contributing exactly `sanPre pre`. -/
theorem gosek_C9 (pre rest : List Char)
    (hcolon : ':' ∉ rest) (hparen : ')' ∉ rest) :
    sanitizeInlineFlags (pre ++ '(' :: '?' :: rest) =
      ((sanPre pre).1 ++ '(' :: '?' :: rest, (sanPre pre).2) := by
  have h := san_prefix pre ('(' :: '?' :: rest) ('(' :: '?' :: rest) 0
    ⟨'?' :: rest, rfl⟩ ?_
  · simpa using h
  · intro x hx1 hx2
    refine san_verbatim (x ++ '(' :: '?' :: rest) ?_ ?_
    · intro hm
      rcases List.mem_append.1 hm with hm | hm
      · exact hx1 hm
      · rcases List.mem_cons.1 hm with hm | hm
        · exact absurd hm (by decide)
        · rcases List.mem_cons.1 hm with hm | hm
          · exact absurd hm (by decide)
          · exact hcolon hm
    · intro hm
      rcases List.mem_append.1 hm with hm | hm
      · exact hx2 hm
      · rcases List.mem_cons.1 hm with hm | hm
        · exact absurd hm (by decide)
        · rcases List.mem_cons.1 hm with hm | hm
          · exact absurd hm (by decide)
          · exact hparen hm

theorem gosek_C9_witness :
    ':' ∉ (['i', 'm'] : List Char) ∧ ')' ∉ (['i', 'm'] : List Char) ∧
    sanitizeInlineFlags (['(', 'a', ')'] ++ '(' :: '?' :: ['i', 'm']) =
      ((sanPre ['(', 'a', ')']).1 ++ '(' :: '?' :: ['i', 'm'],
       (sanPre ['(', 'a', ')']).2) :=
  ⟨by decide, by decide,
    gosek_C9 ['(', 'a', ')'] ['i', 'm'] (by decide) (by decide)⟩

/-! ### Template loading (`patterns_loader.py`, lines 21-27 and 94-127) -/

/-- Parsed template values (the JSON/YAML/TOML data reaching
`_load_from_obj`). -/
inductive JVal where
  | null
  | bool (b : Bool)
  | num (n : Int)
  | str (s : String)
  | arr (items : List JVal)
  | obj (fields : List (String × JVal))

/-- The Python exceptions the loader can raise: `ValueError` (the
`InvalidTemplateStructure` family, raised explicitly) and `AttributeError`
(raised implicitly by calling a missing method such as `.get` on a non-dict or
`.upper()` on a non-string). -/
inductive PyErr where
  | valueError (msg : String)
  | attributeError (msg : String)
deriving DecidableEq

def jIsArr : JVal → Bool
  | JVal.arr _ => true
  | _ => false

def jIsStr : JVal → Bool
  | JVal.str _ => true
  | _ => false

/-- `EXTERNAL_FLAG_MAP` with the CPython numeric flag values. -/
def EXTERNAL_FLAG_MAP : List (String × Nat) :=
  [("IGNORECASE", 2), ("MULTILINE", 8), ("DOTALL", 16), ("VERBOSE", 64)]

/-- `EXTERNAL_FLAG_MAP.get(name, 0)`. -/
def extFlagGet (s : String) : Nat :=
  (EXTERNAL_FLAG_MAP.lookup s).getD 0

/-- A declared flag name recognized by `EXTERNAL_FLAG_MAP` after upper-casing. -/
def recognizedFlagName (s : String) : Bool :=
  (EXTERNAL_FLAG_MAP.lookup s.toUpper).isSome

/-- The flag loop of `_compile` (lines 95-97):
`for name in (flags or []): f |= EXTERNAL_FLAG_MAP.get(name.upper(), 0)`.
Calling `.upper()` on a non-string element raises `AttributeError`. -/
def extFlagFold : Nat → List JVal → Except PyErr Nat
  | f, [] => Except.ok f
  | f, v :: rest =>
    match v with
    | JVal.str s => extFlagFold (f ||| extFlagGet s.toUpper) rest
    | _ => Except.error (PyErr.attributeError "upper")

/-- The result of `_compile`: the sanitized pattern text and the final flag
bits handed to `re.compile`.  (`re.compile`'s own syntax checking is outside
the model.) -/
structure CompiledSpec where
  sanitized : List Char
  flags : Nat
deriving DecidableEq

/-- `_compile` (lines 94-103): fold the declared flag names, sanitize inline
flags, and OR in `re.MULTILINE` (8) unconditionally. -/
def gosekCompile (pattern : String) (flags : Option (List JVal)) :
    Except PyErr CompiledSpec :=
  match extFlagFold 0 (flags.getD []) with
  | Except.error e => Except.error e
  | Except.ok f =>
    let r := sanitizeInlineFlags pattern.data
    Except.ok ⟨r.1, f ||| r.2 ||| 8⟩

/-- `item.get(key)` on a parsed mapping. -/
def getField (fields : List (String × JVal)) (k : String) : Option JVal :=
  fields.lookup k

/-- One iteration of the entry loop of `_load_from_obj` (lines 113-126).
`item.get` yields `none` both for an absent key and for a stored `null`
(Python's `None`), hence the null-filtering on each lookup.  The `flags` field
is only checked to be a sequence (`isinstance(flags, (list, tuple))`); its
elements are not validated here. -/
def loadEntry (src : String) (idx : Nat) (item : JVal) :
    Except PyErr (String × String × CompiledSpec) :=
  match item with
  | JVal.obj fields =>
    let name := match getField fields "name" with
      | some JVal.null => none
      | v => v
    let pat := match getField fields "pattern" with
      | some JVal.null => none
      | v => v
    let flags := match getField fields "flags" with
      | some JVal.null => none
      | v => v
    match name, pat with
    | some (JVal.str n), some (JVal.str p) =>
      match flags with
      | none =>
        match gosekCompile p none with
        | Except.ok c => Except.ok (n, p, c)
        | Except.error e => Except.error e
      | some (JVal.arr l) =>
        match gosekCompile p (some l) with
        | Except.ok c => Except.ok (n, p, c)
        | Except.error e => Except.error e
      | some _ =>
        Except.error (PyErr.valueError
          s!"Invalid flags at index {idx} in {src}: expected list of strings")
    | _, _ =>
      Except.error (PyErr.valueError
        s!"Invalid pattern entry at index {idx} in {src}: missing name/pattern")
  | _ =>
    Except.error (PyErr.valueError
      s!"Invalid pattern entry at index {idx} in {src}: expected object")

/-- The `for idx, item in enumerate(items)` loop of `_load_from_obj`: the first
failing entry aborts the whole load. -/
def loadEntries (src : String) :
    Nat → List JVal → Except PyErr (List (String × String × CompiledSpec))
  | _, [] => Except.ok []
  | idx, item :: rest =>
    match loadEntry src idx item with
    | Except.error e => Except.error e
    | Except.ok entry =>
      match loadEntries src (idx + 1) rest with
      | Except.error e => Except.error e
      | Except.ok out => Except.ok (entry :: out)

/-- `_load_from_obj` (lines 106-127).  `items = data if isinstance(data, list)
else data.get("patterns", [])`: a non-list non-dict raises `AttributeError` on
`.get`; a dict missing the key defaults to `[]`; the result must then be a
list, else `ValueError`. -/
def _load_from_obj (data : JVal) (src : String) :
    Except PyErr (List (String × String × CompiledSpec)) :=
  match data with
  | JVal.arr items => loadEntries src 0 items
  | JVal.obj fields =>
    match (getField fields "patterns").getD (JVal.arr []) with
    | JVal.arr items => loadEntries src 0 items
    | _ => Except.error (PyErr.valueError
        s!"Invalid template structure in {src}: expected list or dict[patterns]")
  | _ => Except.error (PyErr.attributeError "get")

theorem extFlagFold_err (l : List JVal) (f : Nat) (h : ∃ v ∈ l, jIsStr v = false) :
    extFlagFold f l = Except.error (PyErr.attributeError "upper") := by
  induction l generalizing f with
  | nil => simp at h
  | cons v rest ih =>
    cases v with
    | str s =>
      show extFlagFold (f ||| extFlagGet s.toUpper) rest = _
      apply ih
      obtain ⟨w, hw, hws⟩ := h
      rcases List.mem_cons.1 hw with h' | h'
      · subst h'; simp [jIsStr] at hws
      · exact ⟨w, h', hws⟩
    | null => rfl
    | bool b => rfl
    | num n => rfl
    | arr a => rfl
    | obj o => rfl

theorem extFlagFold_str_ok (names : List String) (f : Nat) :
    extFlagFold f (names.map JVal.str) =
      Except.ok (names.foldl (fun a s => a ||| extFlagGet s.toUpper) f) := by
  induction names generalizing f with
  | nil => rfl
  | cons s rest ih => exact ih (f ||| extFlagGet s.toUpper)

theorem foldl_filter_recognized (names : List String) (f : Nat) :
    names.foldl (fun a s => a ||| extFlagGet s.toUpper) f =
      (names.filter recognizedFlagName).foldl
        (fun a s => a ||| extFlagGet s.toUpper) f := by
  induction names generalizing f with
  | nil => rfl
  | cons s rest ih =>
    by_cases hr : recognizedFlagName s
    · rw [List.filter_cons_of_pos hr]
      exact ih _
    · have h0 : extFlagGet s.toUpper = 0 := by
        rw [recognizedFlagName] at hr
        rw [extFlagGet]
        cases hl : EXTERNAL_FLAG_MAP.lookup s.toUpper with
        | none => rfl
        | some x => rw [hl] at hr; simp at hr
      rw [List.filter_cons_of_neg (by simpa using hr)]
      have : (fun a s => a ||| extFlagGet s.toUpper) f s = f := by
        simp [h0]
      calc (s :: rest).foldl (fun a s => a ||| extFlagGet s.toUpper) f
          = rest.foldl (fun a s => a ||| extFlagGet s.toUpper) (f ||| extFlagGet s.toUpper) := rfl
        _ = rest.foldl (fun a s => a ||| extFlagGet s.toUpper) f := by rw [h0]; simp
        _ = _ := ih f

/-- **C6 (amended).**  Top-level validation of `_load_from_obj`: a mapping
whose `patterns` value is present but not a sequence raises the
InvalidTemplateStructure `ValueError`; a mapping *lacking* the `patterns` key
silently yields zero entries (no error); a scalar top level raises
`AttributeError` (from `.get`), not InvalidTemplateStructure. -/
theorem gosek_C6 :
    (∀ (fields : List (String × JVal)) (src : String) (v : JVal),
       getField fields "patterns" = some v → jIsArr v = false →
       _load_from_obj (JVal.obj fields) src =
         Except.error (PyErr.valueError
           s!"Invalid template structure in {src}: expected list or dict[patterns]")) ∧
    (∀ (fields : List (String × JVal)) (src : String),
       getField fields "patterns" = none →
       _load_from_obj (JVal.obj fields) src = Except.ok []) ∧
    (∀ (s src : String),
       _load_from_obj (JVal.str s) src =
         Except.error (PyErr.attributeError "get")) := by
  refine ⟨?_, ?_, ?_⟩
  · intro fields src v h1 h2
    cases v <;> simp_all [_load_from_obj, jIsArr]
  · intro fields src h
    simp [_load_from_obj, h, loadEntries]
  · intro s src
    rfl

/-- **C6 counterexample.**  A mapping lacking the `patterns` key is *not*
rejected: it loads successfully with zero entries, contradicting the claim
that it raises InvalidTemplateStructure. -/
theorem gosek_C6_counterexample :
    _load_from_obj (JVal.obj [("a", JVal.num 1)]) "tpl.json" = Except.ok [] := rfl

theorem gosek_C6_witness :
    (getField [("patterns", JVal.num 3)] "patterns" = some (JVal.num 3) ∧
     jIsArr (JVal.num 3) = false ∧
     _load_from_obj (JVal.obj [("patterns", JVal.num 3)]) "t.json" =
       Except.error (PyErr.valueError
         "Invalid template structure in t.json: expected list or dict[patterns]")) ∧
    (getField [] "patterns" = none ∧
     _load_from_obj (JVal.obj []) "t.json" = Except.ok []) ∧
    _load_from_obj (JVal.str "hi") "t.json" =
      Except.error (PyErr.attributeError "get") :=
  ⟨⟨rfl, rfl, gosek_C6.1 [("patterns", JVal.num 3)] "t.json" (JVal.num 3) rfl rfl⟩,
   ⟨rfl, gosek_C6.2.1 [] "t.json" rfl⟩,
   gosek_C6.2.2 "hi" "t.json"⟩

/-- **C7 (amended).**  A `flags` field that is present (and non-null) but not a
sequence raises the InvalidTemplateStructure `ValueError` naming the file and
the zero-based entry index; but a `flags` *sequence containing non-string
elements* passes that validation and fails only later, inside `_compile`'s
flag loop, with an `AttributeError` — not with InvalidTemplateStructure. -/
theorem gosek_C7 :
    (∀ (src : String) (idx : Nat) (fields : List (String × JVal))
       (n p : String) (v : JVal),
       getField fields "name" = some (JVal.str n) →
       getField fields "pattern" = some (JVal.str p) →
       getField fields "flags" = some v →
       v ≠ JVal.null → jIsArr v = false →
       loadEntry src idx (JVal.obj fields) =
         Except.error (PyErr.valueError
           s!"Invalid flags at index {idx} in {src}: expected list of strings")) ∧
    (∀ (src : String) (idx : Nat) (fields : List (String × JVal))
       (n p : String) (l : List JVal),
       getField fields "name" = some (JVal.str n) →
       getField fields "pattern" = some (JVal.str p) →
       getField fields "flags" = some (JVal.arr l) →
       (∃ v ∈ l, jIsStr v = false) →
       loadEntry src idx (JVal.obj fields) =
         Except.error (PyErr.attributeError "upper")) := by
  constructor
  · intro src idx fields n p v h1 h2 h3 hnull harr
    simp only [loadEntry]
    rw [h1, h2, h3]
    cases v <;> simp_all [jIsArr]
  · intro src idx fields n p l h1 h2 h3 hex
    have he := extFlagFold_err l 0 hex
    simp only [loadEntry]
    rw [h1, h2, h3]
    simp [gosekCompile, he]

/-- **C7 counterexample.**  An entry whose `flags` is the sequence `[1]` (a
non-string element) does not produce InvalidTemplateStructure: the load fails
with `AttributeError` from `.upper()` inside the compile step instead. -/
theorem gosek_C7_counterexample :
    _load_from_obj
      (JVal.arr [JVal.obj
        [("name", JVal.str "x"), ("pattern", JVal.str "p"),
         ("flags", JVal.arr [JVal.num 1])]]) "tpl.json" =
      Except.error (PyErr.attributeError "upper") := rfl

theorem gosek_C7_witness :
    loadEntry "t.json" 0
      (JVal.obj [("name", JVal.str "x"), ("pattern", JVal.str "p"),
                 ("flags", JVal.str "IGNORECASE")]) =
      Except.error (PyErr.valueError
        "Invalid flags at index 0 in t.json: expected list of strings") ∧
    loadEntry "t.json" 0
      (JVal.obj [("name", JVal.str "x"), ("pattern", JVal.str "p"),
                 ("flags", JVal.arr [JVal.num 1])]) =
      Except.error (PyErr.attributeError "upper") :=
  ⟨gosek_C7.1 "t.json" 0 _ "x" "p" (JVal.str "IGNORECASE") rfl rfl rfl
     (fun h => JVal.noConfusion h) rfl,
   gosek_C7.2 "t.json" 0 _ "x" "p" [JVal.num 1] rfl rfl rfl
     ⟨JVal.num 1, by simp, rfl⟩⟩

/-- **C10.**  Unrecognized declared flag names never make `_compile` fail:
compilation succeeds, and deleting every unrecognized name from the `flags`
sequence leaves the compiled result unchanged — unrecognized names contribute
no flag bits while the recognized ones (matched case-insensitively via
`.upper()`) still take effect. -/
theorem gosek_C10 (p : String) (names : List String) :
    (∃ c, gosekCompile p (some (names.map JVal.str)) = Except.ok c) ∧
    gosekCompile p (some (names.map JVal.str)) =
      gosekCompile p (some ((names.filter recognizedFlagName).map JVal.str)) := by
  constructor
  · exact ⟨⟨(sanitizeInlineFlags p.data).1,
      names.foldl (fun a s => a ||| extFlagGet s.toUpper) 0 |||
        (sanitizeInlineFlags p.data).2 ||| 8⟩,
      by simp only [gosekCompile, Option.getD_some, extFlagFold_str_ok]⟩
  · simp only [gosekCompile, Option.getD_some, extFlagFold_str_ok]
    rw [← foldl_filter_recognized]

/-! ### Scan engine (`scanner.py`, lines 13-110) -/

/-- The `Finding` dataclass.  The source field `match` is a Lean keyword and is
embedded as `matched`. -/
structure Finding where
  pattern_name : String
  pattern : List Char
  matched : List Char
  context : List Char
  source : String
deriving DecidableEq

/-- ASCII fragment of Python's `str.strip()` whitespace class. -/
def pyIsSpace (c : Char) : Bool :=
  c = ' ' || c = '\t' || c = '\n' || c = '\r' || c = '\x0B' || c = '\x0C'

/-- `str.strip()`: drop leading and trailing whitespace. -/
def pyStrip (l : List Char) : List Char :=
  ((l.dropWhile pyIsSpace).reverse.dropWhile pyIsSpace).reverse

/-- `context_snippet` (lines 55-58).  `start - ctx` in ℕ is exactly Python's
`max(0, start - ctx)`; the two `replace` passes collapse into one map since
both targets are single characters rewritten to `' '`. -/
def context_snippet (text : List Char) (start stop ctx : Nat) : List Char :=
  let s := start - ctx
  let e := min text.length (stop + ctx)
  pyStrip (((text.drop s).take (e - s)).map
    (fun c => if c = '\n' then ' ' else if c = '\r' then ' ' else c))

/-- The find-all driver behind `cre.finditer(text)`: repeatedly take the
leftmost match at or after `pos`, resume at the match's end, advancing one
extra position after an empty match; stop once `pos` passes the text length.
The fuel `n + 1` supplied by `finditer` suffices for any search function whose
matches start at or after the queried position. -/
def finditerAux (search : Nat → Option (Nat × Nat)) (n : Nat) :
    Nat → Nat → List (Nat × Nat)
  | 0, _ => []
  | fuel + 1, pos =>
    if n < pos then []
    else
      match search pos with
      | none => []
      | some (s, e) =>
        (s, e) :: finditerAux search n fuel (if e = s then e + 1 else e)

def finditer (search : Nat → Option (Nat × Nat)) (n : Nat) : List (Nat × Nat) :=
  finditerAux search n (n + 1) 0

/-- A compiled pattern as consumed by `scan_text`: the template name, the raw
pre-sanitization pattern text, and the matcher abstracted as a search
function: `search text pos` is the leftmost match span at or after `pos`. -/
structure CompiledPattern where
  name : String
  raw : List Char
  search : List Char → Nat → Option (Nat × Nat)

/-- Spans reported by a real regex engine start at or after the queried
position and lie inside the text. -/
def ValidSearch (search : List Char → Nat → Option (Nat × Nat))
    (text : List Char) : Prop :=
  ∀ pos s e, search text pos = some (s, e) → pos ≤ s ∧ s ≤ e ∧ e ≤ text.length

/-- `scan_text` (lines 61-79): one `Finding` per pattern per `finditer` match,
patterns in order, matches left to right. -/
def scan_text (source : String) (text : List Char)
    (compiled_patterns : List CompiledPattern) (context : Nat) : List Finding :=
  compiled_patterns.flatMap (fun p =>
    (finditer (p.search text) text.length).map (fun se =>
      { pattern_name := p.name
        pattern := p.raw
        matched := (text.drop se.1).take (se.2 - se.1)
        context := context_snippet text se.1 se.2 context
        source := source }))

inductive TargetKind where
  | url
  | file
deriving DecidableEq

/-- A scan target `(kind, value)`. -/
structure Target where
  kind : TargetKind
  value : String
deriving DecidableEq

/-- The I/O environment of one `scan_many` call: what `fetch_url` (after all
its retries) and `read_file` produce for a given target value; `Except.error`
models a raised exception. -/
structure Env where
  fetch : String → Except String (List Char)
  readFile : String → Except String (List Char)

def kindStr : TargetKind → String
  | TargetKind.url => "url"
  | TargetKind.file => "file"

def retrieve (env : Env) (t : Target) : Except String (List Char) :=
  match t.kind with
  | TargetKind.url => env.fetch t.value
  | TargetKind.file => env.readFile t.value

/-- The stderr diagnostic written by `_work` when retrieval fails. -/
def skipMsg (t : Target) (e : String) : String :=
  s!"[gosek] skip {kindStr t.kind}:{t.value} — {e}"

/-- `_work` (lines 95-104): fetch or read, then scan; on failure contribute no
findings and one diagnostic. -/
def scanWork (env : Env) (pats : List CompiledPattern) (ctx : Nat)
    (t : Target) : List Finding × List String :=
  match retrieve env t with
  | Except.ok content => (scan_text t.value content pats ctx, [])
  | Except.error e => ([], [skipMsg t e])

/-- `scan_many` (lines 82-110).  `max_workers` only sizes the thread pool; it
never changes what any unit of work computes, so the model ignores it.
`order` is the completion order produced by `as_completed`: an arbitrary
permutation of the submitted indices. -/
def scan_many (env : Env) (targets : List Target)
    (compiled_patterns : List CompiledPattern) (context : Nat)
    (max_workers : Nat) (order : List Nat) : List Finding × List String :=
  let works := (order.filterMap (fun i => targets[i]?)).map
    (scanWork env compiled_patterns context)
  ((works.map Prod.fst).flatten, (works.map Prod.snd).flatten)

theorem range_filterMap_get {α : Type} (l : List α) :
    (List.range l.length).filterMap (fun i => l[i]?) = l := by
  induction l with
  | nil => rfl
  | cons a t ih =>
    have hcomp : ((fun i => (a :: t)[i]?) ∘ Nat.succ) = fun i : Nat => t[i]? := by
      funext i; simp
    rw [List.length_cons, List.range_succ_eq_map, List.filterMap_cons,
      List.filterMap_map, hcomp]
    simp [ih]

theorem order_perm_targets {α : Type} (l : List α) (o : List Nat)
    (h : o.Perm (List.range l.length)) :
    (o.filterMap (fun i => l[i]?)).Perm l := by
  have h2 := h.filterMap (fun i => l[i]?)
  rwa [range_filterMap_get] at h2

theorem scan_many_fst_perm (env : Env) (pats : List CompiledPattern)
    (ctx w : Nat) (targets : List Target) (o : List Nat)
    (ho : o.Perm (List.range targets.length)) :
    ((scan_many env targets pats ctx w o).1).Perm
      (targets.flatMap (fun t => (scanWork env pats ctx t).1)) := by
  have hp := order_perm_targets targets o ho
  have h2 := ((hp.map (scanWork env pats ctx)).map Prod.fst).flatten
  simpa [scan_many, List.flatMap, List.map_map, Function.comp] using h2

theorem scan_many_range (env : Env) (pats : List CompiledPattern)
    (ctx w : Nat) (targets : List Target) :
    scan_many env targets pats ctx w (List.range targets.length) =
      (((targets.map (scanWork env pats ctx)).map Prod.fst).flatten,
       ((targets.map (scanWork env pats ctx)).map Prod.snd).flatten) := by
  simp [scan_many, range_filterMap_get]

/-- **C2.**  `scan_many` is, as a multiset, the concatenation over targets of
the per-target findings — one `Finding` per non-overlapping `finditer` match of
each compiled pattern on that target's content — independently of the worker
count and of the completion order; in particular any two worker counts `≥ 1`
(e.g. 1 and 20) with any two completion orders yield the same multiset.  The
final conjunct is the per-target count invariant: the number of findings is
the sum over patterns of the number of find-all matches. -/
theorem gosek_C2 (env : Env) (targets : List Target)
    (pats : List CompiledPattern) (ctx : Nat)
    (w1 w2 : Nat) (o1 o2 : List Nat)
    (hw1 : 1 ≤ w1) (hw2 : 1 ≤ w2)
    (ho1 : o1.Perm (List.range targets.length))
    (ho2 : o2.Perm (List.range targets.length)) :
    ((scan_many env targets pats ctx w1 o1).1 : Multiset Finding) =
        ↑(targets.flatMap (fun t => (scanWork env pats ctx t).1)) ∧
    ((scan_many env targets pats ctx w1 o1).1 : Multiset Finding) =
        ↑(scan_many env targets pats ctx w2 o2).1 ∧
    ∀ (src : String) (text : List Char),
      (scan_text src text pats ctx).length =
        (pats.map (fun p => (finditer (p.search text) text.length).length)).sum := by
  have k1 := scan_many_fst_perm env pats ctx w1 targets o1 ho1
  have k2 := scan_many_fst_perm env pats ctx w2 targets o2 ho2
  refine ⟨Multiset.coe_eq_coe.2 k1, Multiset.coe_eq_coe.2 (k1.trans k2.symm), ?_⟩
  intro src text
  rw [scan_text, List.flatMap, List.length_flatten, List.map_map]
  refine congrArg List.sum (List.map_congr_left ?_)
  intro p _
  simp

theorem gosek_C2_witness :
    1 ≤ 1 ∧ 1 ≤ 20 ∧
    ([1, 0] : List Nat).Perm (List.range 2) ∧
    ([0, 1] : List Nat).Perm (List.range 2) ∧
    (((scan_many (Env.mk (fun _ => Except.error "x") (fun _ => Except.error "x"))
        [(Target.mk TargetKind.url "u"), (Target.mk TargetKind.file "f")] [] 80 1 [1, 0]).1 :
          Multiset Finding) =
        ↑([(Target.mk TargetKind.url "u"), (Target.mk TargetKind.file "f")].flatMap
            (fun t => (scanWork ⟨fun _ => Except.error "x",
              fun _ => Except.error "x"⟩ [] 80 t).1)) ∧
      ((scan_many (Env.mk (fun _ => Except.error "x") (fun _ => Except.error "x"))
        [(Target.mk TargetKind.url "u"), (Target.mk TargetKind.file "f")] [] 80 1 [1, 0]).1 :
          Multiset Finding) =
        ↑(scan_many (Env.mk (fun _ => Except.error "x") (fun _ => Except.error "x"))
          [(Target.mk TargetKind.url "u"), (Target.mk TargetKind.file "f")] [] 80 20 [0, 1]).1 ∧
      ∀ (src : String) (text : List Char),
        (scan_text src text [] 80).length =
          (([] : List CompiledPattern).map
            (fun p => (finditer (p.search text) text.length).length)).sum) :=
  ⟨by decide, by decide, by decide, by decide,
    gosek_C2 (Env.mk (fun _ => Except.error "x") (fun _ => Except.error "x"))
      [(Target.mk TargetKind.url "u"), (Target.mk TargetKind.file "f")] [] 80 1 20 [1, 0] [0, 1]
      (by decide) (by decide) (by decide) (by decide)⟩

/-- **C3.**  A target whose retrieval raises contributes zero findings, its
error is reported as one stderr diagnostic, and the remaining targets of the
same invocation still contribute every one of their findings: dropping the
failing target from the list leaves the multiset of findings unchanged. -/
theorem gosek_C3 (env : Env) (pats : List CompiledPattern) (ctx w : Nat)
    (pre post : List Target) (t : Target) (err : String)
    (hfail : retrieve env t = Except.error err) :
    scanWork env pats ctx t = ([], [skipMsg t err]) ∧
    skipMsg t err ∈
      (scan_many env (pre ++ t :: post) pats ctx w
        (List.range (pre ++ t :: post).length)).2 ∧
    ((scan_many env (pre ++ t :: post) pats ctx w
        (List.range (pre ++ t :: post).length)).1 : Multiset Finding) =
      ↑(scan_many env (pre ++ post) pats ctx w
        (List.range (pre ++ post).length)).1 := by
  have hwork : scanWork env pats ctx t = ([], [skipMsg t err]) := by
    rw [scanWork, hfail]
  refine ⟨hwork, ?_, ?_⟩
  · rw [scan_many_range]
    simp only [List.map_append, List.map_cons, hwork]
    rw [List.mem_flatten]
    exact ⟨[skipMsg t err], by simp, by simp⟩
  · rw [scan_many_range, scan_many_range]
    congr 1
    simp [hwork]

theorem gosek_C3_witness :
    retrieve (Env.mk (fun _ => Except.error "boom") (fun v => Except.ok v.data))
        (Target.mk TargetKind.url "u") = Except.error "boom" ∧
    (scanWork (Env.mk (fun _ => Except.error "boom") (fun v => Except.ok v.data)) [] 80
        (Target.mk TargetKind.url "u") = ([], [skipMsg (Target.mk TargetKind.url "u") "boom"]) ∧
      skipMsg (Target.mk TargetKind.url "u") "boom" ∈
        (scan_many (Env.mk (fun _ => Except.error "boom") (fun v => Except.ok v.data))
          ([(Target.mk TargetKind.file "a")] ++ (Target.mk TargetKind.url "u") :: [(Target.mk TargetKind.file "b")])
          [] 80 20
          (List.range ([(Target.mk TargetKind.file "a")] ++
            (Target.mk TargetKind.url "u") :: [(Target.mk TargetKind.file "b")]).length)).2 ∧
      ((scan_many (Env.mk (fun _ => Except.error "boom") (fun v => Except.ok v.data))
          ([(Target.mk TargetKind.file "a")] ++ (Target.mk TargetKind.url "u") :: [(Target.mk TargetKind.file "b")])
          [] 80 20
          (List.range ([(Target.mk TargetKind.file "a")] ++
            (Target.mk TargetKind.url "u") :: [(Target.mk TargetKind.file "b")]).length)).1 :
            Multiset Finding) =
        ↑(scan_many (Env.mk (fun _ => Except.error "boom") (fun v => Except.ok v.data))
          ([(Target.mk TargetKind.file "a")] ++ [(Target.mk TargetKind.file "b")]) [] 80 20
          (List.range ([(Target.mk TargetKind.file "a")] ++
            [(Target.mk TargetKind.file "b")]).length)).1) :=
  ⟨rfl, gosek_C3 (Env.mk (fun _ => Except.error "boom") (fun v => Except.ok v.data)) [] 80 20
    [(Target.mk TargetKind.file "a")] [(Target.mk TargetKind.file "b")] (Target.mk TargetKind.url "u") "boom" rfl⟩

theorem finditer_valid {search : Nat → Option (Nat × Nat)} {n : Nat}
    (hv : ∀ pos s e, search pos = some (s, e) → pos ≤ s ∧ s ≤ e ∧ e ≤ n) :
    ∀ se ∈ finditer search n, se.1 ≤ se.2 ∧ se.2 ≤ n := by
  have key : ∀ fuel pos, ∀ se ∈ finditerAux search n fuel pos,
      se.1 ≤ se.2 ∧ se.2 ≤ n := by
    intro fuel
    induction fuel with
    | zero => intro pos se h; simp [finditerAux] at h
    | succ fuel ih =>
      intro pos se h
      rw [finditerAux] at h
      by_cases hp : n < pos
      · simp [hp] at h
      · simp only [hp, if_false] at h
        cases hsr : search pos with
        | none => rw [hsr] at h; simp at h
        | some v =>
          obtain ⟨s, e⟩ := v
          rw [hsr] at h
          rcases List.mem_cons.1 h with h | h
          · subst h
            have hb := hv pos s e hsr
            exact ⟨hb.2.1, hb.2.2⟩
          · exact ih _ se h
  exact key _ 0

theorem pyStrip_length_le (l : List Char) : (pyStrip l).length ≤ l.length := by
  have h1 := (List.dropWhile_sublist (l := l) pyIsSpace).length_le
  have h2 := (List.dropWhile_sublist
    (l := (l.dropWhile pyIsSpace).reverse) pyIsSpace).length_le
  simp only [pyStrip, List.length_reverse] at *
  omega

theorem pyStrip_subset {c : Char} {l : List Char} (h : c ∈ pyStrip l) : c ∈ l := by
  rw [pyStrip, List.mem_reverse] at h
  have h2 := (List.dropWhile_sublist pyIsSpace).subset h
  rw [List.mem_reverse] at h2
  exact (List.dropWhile_sublist pyIsSpace).subset h2

theorem context_snippet_spec (text : List Char) (s e ctx : Nat)
    (hse : s ≤ e) :
    (context_snippet text s e ctx).length ≤ 2 * ctx + (e - s) ∧
    '\n' ∉ context_snippet text s e ctx ∧
    '\r' ∉ context_snippet text s e ctx := by
  refine ⟨?_, ?_, ?_⟩
  · refine le_trans (pyStrip_length_le _) ?_
    rw [List.length_map]
    refine le_trans (List.length_take_le _ _) ?_
    have h := min_le_right text.length (e + ctx)
    omega
  · intro hmem
    have h2 := pyStrip_subset hmem
    rw [List.mem_map] at h2
    obtain ⟨c, hcmem, hc⟩ := h2
    by_cases hc1 : c = '\n'
    · simp [hc1] at hc
    · by_cases hc2 : c = '\r'
      · simp [hc2] at hc
      · simp [hc1, hc2] at hc
  · intro hmem
    have h2 := pyStrip_subset hmem
    rw [List.mem_map] at h2
    obtain ⟨c, hcmem, hc⟩ := h2
    by_cases hc1 : c = '\n'
    · simp [hc1] at hc
    · by_cases hc2 : c = '\r'
      · simp [hc2] at hc
      · simp [hc1, hc2] at hc

/-- **C8.**  Every `Finding` of `scan_text` (with any matchers whose spans are
well formed for the scanned text) carries as `context` exactly the
`context_snippet` of its match span — the `[start-ctx, stop+ctx]` substring
clamped to the text, newlines and carriage returns replaced by spaces,
whitespace-trimmed — so its length is at most `2*ctx + len(match)` and it
contains no `'\n'` or `'\r'`. -/
theorem gosek_C8 (text : List Char) (pats : List CompiledPattern)
    (src : String) (ctx : Nat) (f : Finding)
    (hv : ∀ p ∈ pats, ValidSearch p.search text)
    (hf : f ∈ scan_text src text pats ctx) :
    ∃ s e, s ≤ e ∧ e ≤ text.length ∧
      f.matched = (text.drop s).take (e - s) ∧
      f.context = context_snippet text s e ctx ∧
      f.context.length ≤ 2 * ctx + f.matched.length ∧
      '\n' ∉ f.context ∧ '\r' ∉ f.context := by
  rw [scan_text, List.mem_flatMap] at hf
  obtain ⟨p, hp, hf⟩ := hf
  rw [List.mem_map] at hf
  obtain ⟨se, hse, rfl⟩ := hf
  have hb := finditer_valid (hv p hp) se hse
  refine ⟨se.1, se.2, hb.1, hb.2, rfl, rfl, ?_, ?_, ?_⟩
  · have hs := context_snippet_spec text se.1 se.2 ctx hb.1
    have hlen : ((text.drop se.1).take (se.2 - se.1)).length = se.2 - se.1 := by
      rw [List.length_take, List.length_drop]
      omega
    simpa [hlen] using hs.1
  · exact (context_snippet_spec text se.1 se.2 ctx hb.1).2.1
  · exact (context_snippet_spec text se.1 se.2 ctx hb.1).2.2

theorem gosek_C8_witness :
    (∀ p ∈ [CompiledPattern.mk "N" []
        (fun _ pos => if pos = 0 then some (1, 3) else none)],
      ValidSearch p.search ['a', 'b', '\n', 'c', 'd']) ∧
    Finding.mk "N" [] ['b', '\n'] ['a', 'b', ' ', 'c', 'd'] "t" ∈
      scan_text "t" ['a', 'b', '\n', 'c', 'd']
        [CompiledPattern.mk "N" []
          (fun _ pos => if pos = 0 then some (1, 3) else none)] 2 ∧
    (∃ s e, s ≤ e ∧ e ≤ (['a', 'b', '\n', 'c', 'd'] : List Char).length ∧
      (Finding.mk "N" [] ['b', '\n'] ['a', 'b', ' ', 'c', 'd'] "t").matched =
        ((['a', 'b', '\n', 'c', 'd'] : List Char).drop s).take (e - s) ∧
      (Finding.mk "N" [] ['b', '\n'] ['a', 'b', ' ', 'c', 'd'] "t").context =
        context_snippet ['a', 'b', '\n', 'c', 'd'] s e 2 ∧
      (Finding.mk "N" [] ['b', '\n'] ['a', 'b', ' ', 'c', 'd'] "t").context.length ≤
        2 * 2 +
          (Finding.mk "N" [] ['b', '\n'] ['a', 'b', ' ', 'c', 'd'] "t").matched.length ∧
      '\n' ∉ (Finding.mk "N" [] ['b', '\n'] ['a', 'b', ' ', 'c', 'd'] "t").context ∧
      '\r' ∉ (Finding.mk "N" [] ['b', '\n'] ['a', 'b', ' ', 'c', 'd'] "t").context) := by
  have hv : ∀ p ∈ [CompiledPattern.mk "N" []
      (fun _ pos => if pos = 0 then some (1, 3) else none)],
      ValidSearch p.search ['a', 'b', '\n', 'c', 'd'] := by
    intro p hp
    simp only [List.mem_singleton] at hp
    subst hp
    intro pos s e h
    by_cases h0 : pos = 0
    · subst h0
      simp at h ⊢
      omega
    · simp [h0] at h
  have hf : Finding.mk "N" [] ['b', '\n'] ['a', 'b', ' ', 'c', 'd'] "t" ∈
      scan_text "t" ['a', 'b', '\n', 'c', 'd']
        [CompiledPattern.mk "N" []
          (fun _ pos => if pos = 0 then some (1, 3) else none)] 2 := by
    decide
  exact ⟨hv, hf, gosek_C8 _ _ _ _ _ hv hf⟩

/-! ### `fetch_url` (`scanner.py`, lines 22-48) -/

/-- Observable events of one `fetch_url` call: an HTTP attempt, the stderr
retry diagnostic, and the backoff sleep. -/
inductive FetchEvent where
  | attempt (n : Nat)
  | diagnostic (n : Nat) (delay : ℚ)
  | sleep (delay : ℚ)
deriving DecidableEq

/-- The retry loop `for attempt in range(1, retries + 1)` of `fetch_url`,
at attempt `a` with `rem` loop iterations left.  `oracle n` is the outcome of
the `n`-th HTTP attempt (`Except.error` models any raised exception, including
a non-success status via `raise_for_status`).  `backoff * 2 ^ (attempt - 1)`
is computed in exact rational arithmetic, faithful to the source's float
expression `backoff * (2 ** (attempt - 1))` because scaling by a power of two
is exact in binary floating point.  The `rem = 0` leaf is the trailing
`RuntimeError` raised when the loop body never runs (only reachable when
`retries = 0`). -/
def fetchGo (oracle : Nat → Except String String) (backoff : ℚ) :
    Nat → Nat → List FetchEvent × Except String String
  | _, 0 => ([], Except.error "RuntimeError: fetch loop exhausted")
  | a, rem + 1 =>
    match oracle a with
    | Except.ok body => ([FetchEvent.attempt a], Except.ok body)
    | Except.error e =>
      if rem = 0 then ([FetchEvent.attempt a], Except.error e)
      else
        let d := backoff * 2 ^ (a - 1)
        let r := fetchGo oracle backoff (a + 1) rem
        (FetchEvent.attempt a :: FetchEvent.diagnostic a d ::
          FetchEvent.sleep d :: r.1, r.2)

/-- `fetch_url`: the retry loop started at attempt 1, returning the event
trace and the final outcome. -/
def fetch_url (oracle : Nat → Except String String) (retries : Nat)
    (backoff : ℚ) : List FetchEvent × Except String String :=
  fetchGo oracle backoff 1 retries

def isAttempt : FetchEvent → Bool
  | FetchEvent.attempt _ => true
  | _ => false

/-- Scanning left to right, every `sleep` is immediately preceded by the
diagnostic announcing the same delay. -/
def sleepsAnnounced : List FetchEvent → Bool
  | [] => true
  | FetchEvent.diagnostic _ d :: FetchEvent.sleep d2 :: rest =>
      d == d2 && sleepsAnnounced rest
  | FetchEvent.sleep _ :: _ => false
  | _ :: rest => sleepsAnnounced rest

theorem fetchGo_count (oracle : Nat → Except String String) (b : ℚ) :
    ∀ rem a, ((fetchGo oracle b a rem).1.countP isAttempt) ≤ rem := by
  intro rem
  induction rem with
  | zero => intro a; simp [fetchGo]
  | succ rem ih =>
    intro a
    rw [fetchGo]
    cases oracle a with
    | ok body => simp [List.countP_cons, isAttempt]
    | error e =>
      by_cases hrem : rem = 0
      · simp [hrem, List.countP_cons, isAttempt]
      · simp only [hrem, if_false, List.countP_cons, isAttempt]
        have := ih (a + 1)
        simp [List.countP_cons, isAttempt] at this ⊢
        omega

theorem fetchGo_diag (oracle : Nat → Except String String) (b : ℚ) :
    ∀ rem a, 1 ≤ a → ∀ n d,
      FetchEvent.diagnostic n d ∈ (fetchGo oracle b a rem).1 →
      d = b * 2 ^ (n - 1) ∧ a ≤ n ∧ n + 1 < a + rem := by
  intro rem
  induction rem with
  | zero => intro a _ n d h; simp [fetchGo] at h
  | succ rem ih =>
    intro a ha n d h
    rw [fetchGo] at h
    cases ho : oracle a with
    | ok body => rw [ho] at h; simp at h
    | error e =>
      rw [ho] at h
      by_cases hrem : rem = 0
      · simp [hrem] at h
      · simp only [hrem, if_false] at h
        rcases List.mem_cons.1 h with h | h
        · simp at h
        · rcases List.mem_cons.1 h with h | h
          · obtain ⟨h1, h2⟩ := by simpa using h
            subst h1; subst h2
            exact ⟨rfl, le_refl _, by omega⟩
          · rcases List.mem_cons.1 h with h | h
            · simp at h
            · have := ih (a + 1) (by omega) n d h
              exact ⟨this.1, by omega, by omega⟩

theorem sleepsAnnounced_cons_attempt (n : Nat) (rest : List FetchEvent) :
    sleepsAnnounced (FetchEvent.attempt n :: rest) = sleepsAnnounced rest := rfl

theorem sleepsAnnounced_cons_diag (n : Nat) (d d2 : ℚ) (rest : List FetchEvent) :
    sleepsAnnounced (FetchEvent.diagnostic n d :: FetchEvent.sleep d2 :: rest) =
      (d == d2 && sleepsAnnounced rest) := rfl

theorem fetchGo_sleeps (oracle : Nat → Except String String) (b : ℚ) :
    ∀ rem a, sleepsAnnounced (fetchGo oracle b a rem).1 = true := by
  intro rem
  induction rem with
  | zero => intro a; rfl
  | succ rem ih =>
    intro a
    rw [fetchGo]
    cases ho : oracle a with
    | ok body => rfl
    | error e =>
      by_cases hrem : rem = 0
      · simp only [hrem, if_pos rfl]
        rfl
      · simp only [hrem, if_false]
        rw [sleepsAnnounced_cons_attempt, sleepsAnnounced_cons_diag]
        simp [ih (a + 1)]

theorem fetchGo_allfail (oracle : Nat → Except String String) (b : ℚ) :
    ∀ rem a, 1 ≤ rem →
    (∀ n, a ≤ n → n < a + rem → ∃ msg, oracle n = Except.error msg) →
    ∃ msg, oracle (a + rem - 1) = Except.error msg ∧
      (fetchGo oracle b a rem).2 = Except.error msg := by
  intro rem
  induction rem with
  | zero => intro a h0; exact absurd h0 (by omega)
  | succ rem ih =>
    intro a _ h
    obtain ⟨msg, hmsg⟩ := h a (le_refl a) (by omega)
    by_cases hrem : rem = 0
    · subst hrem
      refine ⟨msg, by simpa using hmsg, ?_⟩
      rw [fetchGo, hmsg]
      simp
    · obtain ⟨msg2, h2, h3⟩ :=
        ih (a + 1) (by omega) (fun n hn1 hn2 => h n (by omega) (by omega))
      refine ⟨msg2, ?_, ?_⟩
      · have harith : a + 1 + rem - 1 = a + (rem + 1) - 1 := by omega
        rwa [harith] at h2
      · rw [fetchGo, hmsg]
        simpa [hrem] using h3

/-- **C4.**  `fetch_url` with `retries = r ≥ 1` makes at most `r` HTTP attempts
in total; every retry diagnostic for a failed attempt `n` announces the delay
`backoff * 2^(n-1)` (and only non-final attempts `1 ≤ n < r` produce one); each
backoff sleep is immediately preceded by its diagnostic; and when every attempt
fails, the final attempt's error is raised to the caller. -/
theorem gosek_C4 (oracle : Nat → Except String String) (r : Nat) (b : ℚ)
    (hr : 1 ≤ r) :
    ((fetch_url oracle r b).1.countP isAttempt) ≤ r ∧
    (∀ n d, FetchEvent.diagnostic n d ∈ (fetch_url oracle r b).1 →
      d = b * 2 ^ (n - 1) ∧ 1 ≤ n ∧ n < r) ∧
    sleepsAnnounced (fetch_url oracle r b).1 = true ∧
    ((∀ n, 1 ≤ n → n ≤ r → ∃ msg, oracle n = Except.error msg) →
      ∃ msg, oracle r = Except.error msg ∧
        (fetch_url oracle r b).2 = Except.error msg) := by
  refine ⟨fetchGo_count oracle b r 1, ?_, fetchGo_sleeps oracle b r 1, ?_⟩
  · intro n d h
    have := fetchGo_diag oracle b r 1 (le_refl 1) n d h
    exact ⟨this.1, this.2.1, by omega⟩
  · intro h
    have := fetchGo_allfail oracle b r 1 hr
      (fun n hn1 hn2 => h n hn1 (by omega))
    have harith : 1 + r - 1 = r := by omega
    rwa [harith] at this

theorem gosek_C4_witness :
    1 ≤ 3 ∧
    (((fetch_url (fun _ => Except.error "down") 3 (1 / 2)).1.countP isAttempt) ≤ 3 ∧
      (∀ n d, FetchEvent.diagnostic n d ∈
          (fetch_url (fun _ => Except.error "down") 3 (1 / 2)).1 →
        d = (1 / 2 : ℚ) * 2 ^ (n - 1) ∧ 1 ≤ n ∧ n < 3) ∧
      sleepsAnnounced (fetch_url (fun _ => Except.error "down") 3 (1 / 2)).1 = true ∧
      ((∀ n, 1 ≤ n → n ≤ 3 →
          ∃ msg, (fun _ => Except.error "down" : Nat → Except String String) n =
            Except.error msg) →
        ∃ msg, (fun _ => Except.error "down" : Nat → Except String String) 3 =
            Except.error msg ∧
          (fetch_url (fun _ => Except.error "down") 3 (1 / 2)).2 =
            Except.error msg)) :=
  ⟨by decide, gosek_C4 (fun _ => Except.error "down") 3 (1 / 2) (by decide)⟩
